import Mathlib

/-!
Verification of the SmartLocal localization plugin (`src/code.ts`) against its
natural-language specification.

Modelling conventions:
* Strings are Lean `String`s; the character-level pipeline steps of
  `normalizeImageName` are implemented over `List Char`.
* JavaScript's `String.prototype.normalize('NFKC')` is a large Unicode
  algorithm that is not reimplemented; every definition that needs it takes it
  as an explicit parameter `nfkc : String → String`.  Concrete instances use
  `id`, which is the restriction of NFKC to the ASCII inputs they mention.
* JavaScript's `toLowerCase` is modelled by `Char.toLower` (the simple ASCII
  case mapping); the locale codes, file extensions and names in the claims are
  ASCII, where the two agree.
* JavaScript numbers are modelled by exact rationals `ℚ` (no IEEE-754
  rounding); `Math.round` becomes `⌊q + 1/2⌋`.
* The asynchronous byte request/response machinery is modelled as an explicit
  event machine over the pending-request table; the apply run consumes byte
  responses through a deterministic oracle `byteOracle : String → Option (List ℕ)`
  (`none` = timeout / failure / empty payload source) and image creation
  through `createImg : List ℕ → Option String` (`none` = the host throws).
-/

namespace SmartLocal

/- The Batteries rational-number operations are `@[irreducible]`; make them
unfoldable here so that concrete score computations can be settled by
`decide`. -/
attribute [local semireducible] Rat.add Rat.mul Rat.inv Rat.sub Rat.ofScientific

/-! ### Constants (src/code.ts lines 9-17) -/

def MAX_IMAGE_BYTES : ℤ := 20 * 1024 * 1024
def MAX_CATALOG_ENTRIES : ℕ := 5000
def BYTE_REQUEST_TIMEOUT_MS : ℕ := 10000
def IMAGE_ISSUE_CAP : ℕ := 30
def MIN_MATCH_SCORE : ℚ := 6/10
def AMBIGUOUS_MARGIN : ℚ := 4/100
def IMAGE_STOPWORDS : List String := ["img", "image", "screen", "screenshot", "copy", "final", "default"]

/-! ### Character classes used by the regexes in `normalizeImageName`
(src/code.ts lines 379-389).  `jsWhitespaceChar` is the JavaScript `\s`
class (WhiteSpace ∪ LineTerminator). -/

def jsWhitespaceChar (c : Char) : Bool :=
  c = ' ' ∨ c = '\t' ∨ c = '\n' ∨ c = '\x0b' ∨ c = '\x0c' ∨ c = '\r' ∨
  c = ' ' ∨ c = ' ' ∨ (' ' ≤ c ∧ c ≤ ' ') ∨
  c = ' ' ∨ c = ' ' ∨ c = ' ' ∨ c = ' ' ∨ c = '　' ∨ c = '﻿'

/-- The dash variants matched by the regex `[‐‑‒–—−]` (line 385). -/
def dashVariantChar (c : Char) : Bool :=
  c = '‐' ∨ c = '‑' ∨ c = '‒' ∨ c = '–' ∨ c = '—' ∨ c = '−'

/-- The separator class `[_\-.]` of the regex on line 386. -/
def sepChar (c : Char) : Bool :=
  c = '_' ∨ c = '-' ∨ c = '.'

/-- JavaScript `\d`, i.e. ASCII `[0-9]`. -/
def jsDigitChar (c : Char) : Bool :=
  '0' ≤ c ∧ c ≤ '9'

/-! ### List-level string pipeline steps -/

/-- Drop a predicate from the end of a list. -/
def dropTrailing (p : Char → Bool) (l : List Char) : List Char :=
  (l.reverse.dropWhile p).reverse

/-- JavaScript `String.prototype.trim`. -/
def jsTrimList (l : List Char) : List Char :=
  dropTrailing jsWhitespaceChar (l.dropWhile jsWhitespaceChar)

def jsTrim (s : String) : String :=
  String.mk (jsTrimList s.data)

/-- `value.replace(/\s+\d+$/, '')` (line 382): if the string ends in a
non-empty digit run preceded by a non-empty whitespace run, remove both;
otherwise leave the string unchanged. -/
def stripTrailingDigitGroup (l : List Char) : List Char :=
  let r := l.reverse
  let ds := r.takeWhile jsDigitChar
  if ds = [] then l
  else
    let ws := (r.drop ds.length).takeWhile jsWhitespaceChar
    if ws = [] then l
    else (r.drop (ds.length + ws.length)).reverse

/-- `value.replace(/[‐‑‒–—−]/g, '-')` (line 385). -/
def mapDashVariants (l : List Char) : List Char :=
  l.map (fun c => if dashVariantChar c then '-' else c)

/-- Helper for `collapseRuns`: `inRun` records whether the previous character
belonged to a run of characters satisfying `p` (whose single replacement
space has already been emitted). -/
def collapseRunsAux (p : Char → Bool) (inRun : Bool) : List Char → List Char
  | [] => []
  | c :: cs =>
    if p c then
      if inRun then collapseRunsAux p true cs
      else ' ' :: collapseRunsAux p true cs
    else c :: collapseRunsAux p false cs

/-- Replace each maximal run of characters satisfying `p` by a single space
(the shape of the global regex replacements on lines 386-387). -/
def collapseRuns (p : Char → Bool) (l : List Char) : List Char :=
  collapseRunsAux p false l

/-- `value.replace(/[_\-.]+/g, ' ')` (line 386): each maximal run of
separator characters becomes a single space. -/
def collapseSeps (l : List Char) : List Char :=
  collapseRuns sepChar l

/-- `value.replace(/\s+/g, ' ')` (line 387): each maximal run of whitespace
becomes a single space. -/
def collapseWs (l : List Char) : List Char :=
  collapseRuns jsWhitespaceChar l

/-- JavaScript `toLowerCase`, modelled by the ASCII simple case mapping. -/
def jsToLowerCase (s : String) : String :=
  String.mk (s.data.map Char.toLower)

/-- `normalizeImageName` (src/code.ts lines 379-389): trim, strip a trailing
space+digits suffix, NFKC-normalize (`nfkc` parameter), lower-case, map dash
variants to an ASCII hyphen, collapse separator runs to spaces, collapse
whitespace runs, trim. -/
def normalizeImageName (nfkc : String → String) (value : String) : String :=
  String.mk <|
    jsTrimList <| collapseWs <| collapseSeps <| mapDashVariants <|
      (jsToLowerCase (nfkc (String.mk (stripTrailingDigitGroup (jsTrimList value.data))))).data

/-! ### Tokenization and scoring (src/code.ts lines 391-499) -/

/-- `/^\d+$/.test token` -/
def allDigitsToken (t : String) : Bool :=
  t.data ≠ [] ∧ t.data.all jsDigitChar

/-- JavaScript `value.split(sep)` for a single-character separator: split at
every occurrence, keeping empty pieces. -/
def splitChar (sep : Char) : List Char → List (List Char)
  | [] => [[]]
  | c :: cs =>
    let r := splitChar sep cs
    if c = sep then [] :: r
    else
      match r with
      | h :: t => (c :: h) :: t
      | [] => [[c]]

/-- `tokenizeCanonicalName` (lines 391-402): split the canonical string on
single spaces, trim each token, keep tokens of length ≥ 2 that are not purely
numeric and not stop-words. -/
def tokenizeCanonicalName (value : String) : List String :=
  if value = "" then []
  else
    (((splitChar ' ' value.data).map String.mk).map jsTrim).filter
      (fun t => 2 ≤ t.length ∧ ¬ allDigitsToken t ∧ ¬ IMAGE_STOPWORDS.contains t)

/-- `computeTokenDiceScore` (lines 404-424): Dice coefficient over the
deduplicated token sets. -/
def computeTokenDiceScore (tokensA tokensB : List String) : ℚ :=
  if tokensA = [] ∨ tokensB = [] then 0
  else
    let setA := tokensA.dedup
    let setB := tokensB.dedup
    let inter := (setA.filter (fun t => setB.contains t)).length
    let denom := setA.length + setB.length
    if denom = 0 then 0 else (2 * inter : ℚ) / denom

/-- `buildBigramCounts` (lines 426-443), as the ordered multiset of bigrams:
a one-character string yields itself as a degenerate bigram. -/
def buildBigrams (l : List Char) : List (List Char) :=
  match l with
  | [] => []
  | [c] => [[c]]
  | _ => (List.range (l.length - 1)).map (fun i => (l.drop i).take 2)

/-- `computeBigramDiceScore` (lines 445-474): Dice coefficient over bigram
multisets, intersecting by minimum count. -/
def computeBigramDiceScore (valueA valueB : String) : ℚ :=
  if valueA = "" ∨ valueB = "" then 0
  else
    let bigramsA := buildBigrams valueA.data
    let bigramsB := buildBigrams valueB.data
    let totalA := bigramsA.length
    let totalB := bigramsB.length
    if totalA = 0 ∨ totalB = 0 then 0
    else
      let inter := (bigramsA.dedup.map
        (fun g => min (bigramsA.count g) (bigramsB.count g))).sum
      (2 * inter : ℚ) / (totalA + totalB)

/-- `haystack.includes needle` for character lists (contiguous substring). -/
def containsSub (haystack needle : List Char) : Bool :=
  match haystack with
  | [] => needle = []
  | _ :: rest => needle.isPrefixOf haystack || containsSub rest needle

/-- `scoreImageNameMatch` (lines 476-499). -/
def scoreImageNameMatch (nfkc : String → String) (nodeName filenameStem : String) : ℚ :=
  let canonicalNodeName := normalizeImageName nfkc nodeName
  let canonicalFilenameStem := normalizeImageName nfkc filenameStem
  if canonicalNodeName = "" ∨ canonicalFilenameStem = "" then 0
  else if canonicalNodeName = canonicalFilenameStem then 1
  else
    let tokenDice := computeTokenDiceScore
      (tokenizeCanonicalName canonicalNodeName) (tokenizeCanonicalName canonicalFilenameStem)
    let charBigramDice := computeBigramDiceScore canonicalNodeName canonicalFilenameStem
    let containsBoost : ℚ :=
      if containsSub canonicalNodeName.data canonicalFilenameStem.data ||
         containsSub canonicalFilenameStem.data canonicalNodeName.data then 8/100 else 0
    min 1 ((55/100) * tokenDice + (45/100) * charBigramDice + containsBoost)

/-! ### Catalog data model (src/code.ts lines 92-150) -/

inductive ImageCatalogExtension where
  | png | jpg | jpeg | webp
deriving DecidableEq, Repr

def ALLOWED_IMAGE_EXTENSIONS : List ImageCatalogExtension :=
  [.png, .jpg, .jpeg, .webp]

structure ImageCatalogEntry where
  key : String
  locale : String
  relPath : String
  stem : String
  extension : ImageCatalogExtension
  size : ℤ
deriving DecidableEq, Repr

structure FolderImageCatalog where
  entries : List ImageCatalogEntry
deriving DecidableEq, Repr

structure ImageSourceSettings where
  enabled : Bool
  modeFolder : Bool
  catalog : Option FolderImageCatalog
deriving DecidableEq, Repr

structure RankedCandidate where
  entry : ImageCatalogEntry
  score : ℚ
deriving DecidableEq, Repr

inductive MatchStatus where
  | matched | noCandidate | lowConfidence | ambiguous
deriving DecidableEq, Repr

structure MatchDecision where
  status : MatchStatus
  best : Option RankedCandidate
  second : Option RankedCandidate
  topCandidates : List RankedCandidate
deriving DecidableEq, Repr

/-! ### Ranking and decision (src/code.ts lines 501-553) -/

/-- Insert into a score-descending list, before the first strictly smaller
score; together with `sortRankedDesc` this is the stable descending sort
performed by `candidates.sort((a, b) => b.score - a.score)`. -/
def insertRankedDesc (x : RankedCandidate) : List RankedCandidate → List RankedCandidate
  | [] => [x]
  | y :: ys => if y.score ≤ x.score then x :: y :: ys else y :: insertRankedDesc x ys

def sortRankedDesc (l : List RankedCandidate) : List RankedCandidate :=
  l.foldr insertRankedDesc []

/-- `rankImageCandidates` (lines 501-508). -/
def rankImageCandidates (nfkc : String → String) (nodeName : String)
    (candidates : List ImageCatalogEntry) : List RankedCandidate :=
  sortRankedDesc (candidates.map fun entry =>
    { entry := entry, score := scoreImageNameMatch nfkc nodeName entry.stem })

/-- `decideImageCandidate` (lines 510-553). -/
def decideImageCandidate (nfkc : String → String) (nodeName : String)
    (candidates : List ImageCatalogEntry) : MatchDecision :=
  if candidates = [] then
    { status := .noCandidate, best := none, second := none, topCandidates := [] }
  else
    match rankImageCandidates nfkc nodeName candidates with
    | [] => { status := .noCandidate, best := none, second := none, topCandidates := [] }
    | best :: rest =>
      let second := rest.head?
      let top := (best :: rest).take 3
      if best.score < MIN_MATCH_SCORE then
        { status := .lowConfidence, best := some best, second := second, topCandidates := top }
      else if (match second with
          | some s => decide (best.score - s.score < AMBIGUOUS_MARGIN)
          | none => false) then
        { status := .ambiguous, best := some best, second := second, topCandidates := top }
      else
        { status := .matched, best := some best, second := second, topCandidates := top }

/-! ### Catalog parsing (src/code.ts lines 279-377) -/

/-- A JavaScript number field: absent / not a number, non-finite, or a finite
value (modelled as an exact rational). -/
inductive RawNum where
  | missing | nonfinite | finiteVal (q : ℚ)
deriving DecidableEq, Repr

/-- JavaScript `Math.round` on finite numbers (ties toward +∞). -/
def jsMathRound (q : ℚ) : ℤ := ⌊q + 1/2⌋

/-- `value.replace(/^\./, '')`: strip one leading dot. -/
def stripLeadingDot (s : String) : String :=
  match s.data with
  | '.' :: rest => String.mk rest
  | _ => s

/-- `parseImageCatalogExtension` (lines 279-290); `none` input models a
missing or non-string field. -/
def parseImageCatalogExtension (value : Option String) : Option ImageCatalogExtension :=
  match value with
  | none => none
  | some v =>
    let normalized := stripLeadingDot (jsToLowerCase (jsTrim v))
    if normalized = "png" then some .png
    else if normalized = "jpg" then some .jpg
    else if normalized = "jpeg" then some .jpeg
    else if normalized = "webp" then some .webp
    else none

/-- A raw element of the catalog's `entries` array: `junk` models a value
that is `null` or not an object; in `fields`, `none` models an absent or
non-string field. -/
inductive RawCatalogEntry where
  | junk
  | fields (key locale relPath stem extensionField : Option String) (size : RawNum)
deriving DecidableEq, Repr

/-- The `typeof entry.size === 'number' && Number.isFinite(entry.size)
? Math.max(0, Math.round(entry.size)) : -1` computation (line 322). -/
def parseEntrySize : RawNum → ℤ
  | .finiteVal q => max 0 (jsMathRound q)
  | _ => -1

/-- `typeof field === 'string' ? field.trim() : ''` (lines 317-320). -/
def rawStringField : Option String → String
  | some v => jsTrim v
  | none => ""

/-- The field validation performed by the loop body of
`parseFolderImageCatalog` (lines 311-341), without the duplicate-key check. -/
def validateCatalogEntry : RawCatalogEntry → Option ImageCatalogEntry
  | .junk => none
  | .fields k l r s e sz =>
    let key := rawStringField k
    let locale := rawStringField l
    let relPath := rawStringField r
    let stem := rawStringField s
    let size := parseEntrySize sz
    match parseImageCatalogExtension e with
    | none => none
    | some extension =>
      if key = "" ∨ locale = "" ∨ relPath = "" ∨ stem = "" ∨ size < 0 then none
      else some { key, locale, relPath, stem, extension, size }

/-- The entries loop of `parseFolderImageCatalog`, threading `seenKeys`. -/
def parseCatalogEntriesGo (seen : List String) : List RawCatalogEntry → List ImageCatalogEntry
  | [] => []
  | raw :: rest =>
    match validateCatalogEntry raw with
    | none => parseCatalogEntriesGo seen rest
    | some e =>
      if seen.contains e.key then parseCatalogEntriesGo seen rest
      else e :: parseCatalogEntriesGo (e.key :: seen) rest

def parseCatalogEntries (raws : List RawCatalogEntry) : List ImageCatalogEntry :=
  parseCatalogEntriesGo [] raws

/-- The raw `catalog` payload: `notObject` models a falsy or non-object
value; in `obj`, the booleans record whether `version === 1` and
`mode === 'folder'`, and `entries = none` models a non-array field. -/
inductive RawCatalog where
  | notObject
  | obj (version1 modeFolder : Bool) (entries : Option (List RawCatalogEntry))
deriving DecidableEq, Repr

/-- `parseFolderImageCatalog` (lines 292-353). -/
def parseFolderImageCatalog : RawCatalog → Option FolderImageCatalog
  | .notObject => none
  | .obj version1 modeFolder entries =>
    match entries with
    | none => none
    | some raws =>
      if version1 && modeFolder then some { entries := parseCatalogEntries raws }
      else none

/-- The raw `imageSource` message field. -/
inductive RawImageSource where
  | notObject
  | obj (enabled : Bool) (modeField : Option String) (catalog : RawCatalog)
deriving DecidableEq, Repr

/-- `parseImageSourceSettings` (lines 355-377). -/
def parseImageSourceSettings : RawImageSource → ImageSourceSettings
  | .notObject => { enabled := false, modeFolder := false, catalog := none }
  | .obj enabled modeField catalog =>
    let modeFolder := modeField = some "folder"
    { enabled := enabled
      modeFolder := modeFolder
      catalog := if modeFolder then parseFolderImageCatalog catalog else none }

/-! ### Locale asset catalog index (src/code.ts lines 681-758) -/

/-- Append an entry to the bucket of `k`, preserving first-insertion order of
keys (JavaScript `Map` iteration order). -/
def upsertLocaleBucket (k : String) (e : ImageCatalogEntry) :
    List (String × List ImageCatalogEntry) → List (String × List ImageCatalogEntry)
  | [] => [(k, [e])]
  | (k0, es) :: rest =>
    if k0 = k then (k0, es ++ [e]) :: rest else (k0, es) :: upsertLocaleBucket k e rest

/-- `getLocaleCatalog` (lines 681-705): bucket eligible entries by locale. -/
def getLocaleCatalog (catalog : FolderImageCatalog) : List (String × List ImageCatalogEntry) :=
  catalog.entries.foldl
    (fun byLocale entry =>
      if ¬ ALLOWED_IMAGE_EXTENSIONS.contains entry.extension then byLocale
      else if MAX_IMAGE_BYTES < entry.size then byLocale
      else upsertLocaleBucket entry.locale entry byLocale)
    []

/-- `getLanguageBase` (lines 707-715): `normalized.split('-')[0]`, falling
back to the whole normalized string when that first piece is empty
(`base || normalized`). -/
def getLanguageBase (locale : String) : String :=
  let normalized := jsToLowerCase (jsTrim locale)
  if normalized = "" then ""
  else
    let base := String.mk (normalized.data.takeWhile (fun c => c ≠ '-'))
    if base = "" then normalized else base

/-- `getCandidatesForLocale` (lines 717-758). -/
def getCandidatesForLocale (localeCatalog : List (String × List ImageCatalogEntry))
    (locale : String) : List ImageCatalogEntry :=
  let exactEntries := ((localeCatalog.find? (fun p => p.1 = locale)).map Prod.snd).getD []
  if exactEntries ≠ [] then exactEntries
  else
    let normalizedLocale := jsToLowerCase (jsTrim locale)
    if normalizedLocale = "" then []
    else
      match localeCatalog.find? (fun p => jsToLowerCase (jsTrim p.1) = normalizedLocale) with
      | some p => p.2
      | none =>
        let localeBase := getLanguageBase locale
        localeCatalog.foldl
          (fun fallback p => if getLanguageBase p.1 = localeBase then fallback ++ p.2 else fallback)
          []

/-! ### Byte request/response machinery (src/code.ts lines 134-152, 569-679)

The asynchronous protocol is modelled as an event machine over the pending
request table `List (String × PendingByteRequest)`: registering a request
adds an entry, and the two possible events — the timeout callback firing and
a correlated `image-bytes-response` message — are pure functions from the
table to the new table plus the resolution delivered to the suspended
caller (`resolve(null)` is `ByteResolution.noData`). -/

structure PendingByteRequest where
  fileKey : String
  timeoutMs : ℕ
deriving DecidableEq, Repr

inductive ByteResolution where
  | noData
  | dataBytes (bs : List ℕ)
deriving DecidableEq, Repr

def lookupAssoc {α : Type} (m : List (String × α)) (k : String) : Option α :=
  (m.find? (fun p => p.1 = k)).map Prod.snd

def eraseAssoc {α : Type} (m : List (String × α)) (k : String) : List (String × α) :=
  m.filter (fun p => p.1 ≠ k)

/-- The registration performed by `requestImageBytesFromUi` (lines 656-679):
a pending entry carrying the file key and the 10s timeout is stored under the
fresh request id. -/
def registerByteRequest (table : List (String × PendingByteRequest))
    (requestId fileKey : String) : List (String × PendingByteRequest) :=
  table ++ [(requestId, { fileKey := fileKey, timeoutMs := BYTE_REQUEST_TIMEOUT_MS })]

/-- The timeout callback (lines 661-665): delete the pending entry and
resolve to "no data". -/
def fireByteTimeout (table : List (String × PendingByteRequest)) (requestId : String) :
    List (String × PendingByteRequest) × ByteResolution :=
  (eraseAssoc table requestId, .noData)

/-- JavaScript ToUint8 (the coercion applied when a number is stored into a
`Uint8Array`): truncate toward zero, then reduce modulo 256. -/
def ratTrunc (q : ℚ) : ℤ :=
  if q < 0 then -⌊-q⌋ else ⌊q⌋

def jsToUint8 (q : ℚ) : ℕ :=
  (ratTrunc q % 256).toNat

/-- The raw `bytes` field of a response message. `numberArray` models a plain
array (a `none` item is a non-number element); `lengthObject` models a
duck-typed object with an integer `length` equal to the number of indexed
properties (a `none` item is an absent or non-number property). -/
inductive RawBytesValue where
  | uint8Array (bs : List ℕ)
  | arrayBuffer (bs : List ℕ)
  | numberArray (items : List (Option ℚ))
  | lengthObject (props : List (Option ℚ))
  | otherValue
deriving DecidableEq, Repr

/-- `parseUint8Array` (lines 569-604). -/
def parseUint8Array : RawBytesValue → Option (List ℕ)
  | .uint8Array bs => some bs
  | .arrayBuffer bs => some bs
  | .numberArray items =>
    if items.all Option.isSome then some ((items.filterMap id).map jsToUint8) else none
  | .lengthObject props =>
    if props.all Option.isSome then some ((props.filterMap id).map jsToUint8) else none
  | .otherValue => none

/-- An `image-bytes-response` message; `requestId = none` models a missing or
non-string field. -/
structure ByteResponseMsg where
  requestId : Option String
  ok : Bool
  bytesField : RawBytesValue
deriving DecidableEq, Repr

/-- `handleImageBytesResponse` (lines 610-654): returns the new table and,
when a pending request is correlated, the resolution delivered to it. -/
def handleImageBytesResponse (table : List (String × PendingByteRequest))
    (msg : ByteResponseMsg) :
    List (String × PendingByteRequest) × Option (String × ByteResolution) :=
  match msg.requestId with
  | none => (table, none)
  | some requestId =>
    if requestId = "" then (table, none)
    else
      match lookupAssoc table requestId with
      | none => (table, none)
      | some _ =>
        let table := eraseAssoc table requestId
        if ¬ msg.ok then (table, some (requestId, .noData))
        else
          match parseUint8Array msg.bytesField with
          | none => (table, some (requestId, .noData))
          | some bs =>
            if bs = [] then (table, some (requestId, .noData))
            else (table, some (requestId, .dataBytes bs))

/-! ### Scene tree model (src/code.ts lines 66-84, 167-257)

A design node carries an id, a display name, a kind (`compInstance` stands
for the host's INSTANCE type), visibility, an optional paint list (`noFills`
= the node has no `fills` property, `mixedFills` = `figma.mixed`), text
characters, the styled-text segmentation, and a node-level style reference.
`styleRef` and `TextSegment.style` are opaque handles standing for the bundle
of the seven style attributes the code copies (font name, font size, fills,
line height, letter spacing, text decoration, text case); the geometry
(`x`/`y`/`height`) of clones is not modelled. -/

inductive NodeKind where
  | frame | component | compInstance | text | other
deriving DecidableEq, Repr

structure TextSegment where
  startIdx : ℕ
  stopIdx : ℕ
  style : ℕ
deriving DecidableEq, Repr

inductive PaintModel where
  | imagePaint (visible : Bool) (imageHash : String)
  | otherPaint
deriving DecidableEq, Repr

inductive FillsProp where
  | noFills
  | mixedFills
  | fillsList (paints : List PaintModel)
deriving DecidableEq, Repr

inductive SNode where
  | node (id name : String) (kind : NodeKind) (visible : Bool) (fills : FillsProp)
      (characters : String) (segments : List TextSegment) (styleRef : ℕ)
      (children : List SNode)

def SNode.id : SNode → String
  | .node i _ _ _ _ _ _ _ _ => i

def SNode.name : SNode → String
  | .node _ n _ _ _ _ _ _ _ => n

def SNode.kind : SNode → NodeKind
  | .node _ _ k _ _ _ _ _ _ => k

def SNode.visible : SNode → Bool
  | .node _ _ _ v _ _ _ _ _ => v

def SNode.fills : SNode → FillsProp
  | .node _ _ _ _ f _ _ _ _ => f

def SNode.segments : SNode → List TextSegment
  | .node _ _ _ _ _ _ s _ _ => s

def SNode.children : SNode → List SNode
  | .node _ _ _ _ _ _ _ _ c => c

/-- `ImageInfo` (lines 74-78). -/
structure ImageInfo where
  id : String
  nodeName : String
  fillIndex : ℕ
deriving DecidableEq, Repr

/-- The image paints of one node's own fill list recorded by
`extractImageNodes` (lines 207-218): visible image paints with their index. -/
def ownImageInfos (n : SNode) : List ImageInfo :=
  match n.fills with
  | .fillsList paints =>
    paints.enum.filterMap fun pi =>
      match pi.2 with
      | .imagePaint vis _ =>
        if vis then some { id := n.id, nodeName := n.name, fillIndex := pi.1 } else none
      | .otherPaint => none
  | _ => []

mutual

/-- `extractImageNodes` (lines 202-225): skip invisible subtrees, record
visible image paints, recurse into children. -/
def extractImageNodesN : SNode → List ImageInfo
  | .node i nm k v fl ch segs st children =>
    let n := SNode.node i nm k v fl ch segs st children
    if ¬ v then []
    else ownImageInfos n ++ extractImageNodesL children

def extractImageNodesL : List SNode → List ImageInfo
  | [] => []
  | c :: cs => extractImageNodesN c ++ extractImageNodesL cs

end

mutual

/-- Lookup in the positional correspondence map built by
`buildSceneNodeMapping` (lines 231-242) for a clone that is still structurally
identical to the original: the last node in pre-order with the given id
(`Map.set` overwrites, and the host guarantees unique ids). -/
def findSceneNodeN (target : String) : SNode → Option SNode
  | .node i nm k v fl ch segs st children =>
    match findSceneNodeL target children with
    | some m => some m
    | none =>
      if i = target then some (SNode.node i nm k v fl ch segs st children) else none

def findSceneNodeL (target : String) : List SNode → Option SNode
  | [] => none
  | c :: cs =>
    match findSceneNodeL target cs with
    | some m => some m
    | none => findSceneNodeN target c

end

/-- Lookup in the text-only correspondence map built by `buildNodeMapping`
(lines 244-257). -/
def findTextNode (target : String) (root : SNode) : Option SNode :=
  match findSceneNodeN target root with
  | some n => if n.kind = .text then some n else none
  | none => none

mutual

/-- Apply `f` to the node with the given id (every occurrence; the host
guarantees ids are unique), modelling in-place mutation of a clone. -/
def updateNodeByIdN (target : String) (f : SNode → SNode) : SNode → SNode
  | .node i nm k v fl ch segs st children =>
    let base := SNode.node i nm k v fl ch segs st (updateNodeByIdL target f children)
    if i = target then f base else base

def updateNodeByIdL (target : String) (f : SNode → SNode) : List SNode → List SNode
  | [] => []
  | c :: cs => updateNodeByIdN target f c :: updateNodeByIdL target f cs

end

def setCharacters (t : String) : SNode → SNode
  | .node i nm k v fl _ segs st children => SNode.node i nm k v fl t segs st children

def setStyleRef (r : ℕ) : SNode → SNode
  | .node i nm k v fl ch segs _ children => SNode.node i nm k v fl ch segs r children

def setFills (fl : FillsProp) : SNode → SNode
  | .node i nm k v _ ch segs st children => SNode.node i nm k v fl ch segs st children

def renameRoot (nm : String) : SNode → SNode
  | .node i _ k v fl ch segs st children => SNode.node i nm k v fl ch segs st children

/-! ### Issues and run state (src/code.ts lines 116-132, 555-567, 938-948) -/

structure MatchCandidateSummary where
  key : String
  relPath : String
  score : ℚ
deriving DecidableEq, Repr

inductive ImageIssueReason where
  | noCandidate | lowConfidence | ambiguous | readFailed
deriving DecidableEq, Repr

structure ImageIssue where
  locale : String
  nodeId : String
  nodeName : String
  reason : ImageIssueReason
  bestScore : Option ℚ
  secondBestScore : Option ℚ
  candidates : Option (List MatchCandidateSummary)
deriving DecidableEq, Repr

/-- `Number(score.toFixed(3))`, modelled as decimal rounding to three places
(the underlying IEEE-754 representation is not modelled). -/
def roundTo3 (q : ℚ) : ℚ :=
  (jsMathRound (q * 1000) : ℚ) / 1000

/-- `summarizeCandidates` (lines 555-561). -/
def summarizeCandidates (candidates : List RankedCandidate) : List MatchCandidateSummary :=
  candidates.map fun c =>
    { key := c.entry.key, relPath := c.entry.relPath, score := roundTo3 c.score }

/-- `addImageIssue` (lines 563-567): issues are capped at 30. -/
def addImageIssue (imageIssues : List ImageIssue) (issue : ImageIssue) : List ImageIssue :=
  if imageIssues.length < IMAGE_ISSUE_CAP then imageIssues ++ [issue] else imageIssues

/-- The mutable state of one apply run (counters, issue list, the per-run
image hash cache, and — for the byte-retrieval model — the ordered list of
asset keys for which a byte request was issued). -/
structure RunState where
  createdCount : ℕ
  imageReplacedCount : ℕ
  imageSkippedCount : ℕ
  imageAmbiguousCount : ℕ
  imageFailedCount : ℕ
  imageIssues : List ImageIssue
  imageHashCache : List (String × String)
  requests : List String
deriving DecidableEq, Repr

def initRunState : RunState :=
  { createdCount := 0, imageReplacedCount := 0, imageSkippedCount := 0
    imageAmbiguousCount := 0, imageFailedCount := 0, imageIssues := []
    imageHashCache := [], requests := [] }

/-! ### Per-node image replacement (src/code.ts lines 1065-1268) -/

/-- Shorthand for the skip bookkeeping shared by the early-skip branches and
the `no-candidate` / `low-confidence` / `ambiguous` branches. -/
def recordSkip (st : RunState) (issue : ImageIssue) : RunState :=
  { st with
    imageSkippedCount := st.imageSkippedCount + 1
    imageIssues := addImageIssue st.imageIssues issue }

def recordReadFailed (st : RunState) (issue : ImageIssue) : RunState :=
  { st with
    imageFailedCount := st.imageFailedCount + 1
    imageIssues := addImageIssue st.imageIssues issue }

/-- One iteration of the `for (const imageInfo of sourceImages)` loop
(lines 1065-1268), acting on the clone being mutated and the run state.
`byteOracle` models `requestImageBytesFromUi` (`none` = timeout, failure or
empty payload source; outcomes are deterministic per asset key within a run)
and `createImg` models `figma.createImage(...)` returning a content hash
(`none` = the host throws).  The paint swap itself (lines 1242-1254) is
modelled as always succeeding. -/
def stepImage (nfkc : String → String) (byteOracle : String → Option (List ℕ))
    (createImg : List ℕ → Option String) (locale : String)
    (localeCandidates : List ImageCatalogEntry)
    (acc : SNode × RunState) (info : ImageInfo) : SNode × RunState :=
  let clone := acc.1
  let st := acc.2
  let noCandidateIssue : ImageIssue :=
    { locale := locale, nodeId := info.id, nodeName := info.nodeName
      reason := .noCandidate, bestScore := none, secondBestScore := none, candidates := none }
  match findSceneNodeN info.id clone with
  | none => (clone, recordSkip st noCandidateIssue)
  | some targetNode =>
    match targetNode.fills with
    | .noFills => (clone, recordSkip st noCandidateIssue)
    | .mixedFills => (clone, recordSkip st noCandidateIssue)
    | .fillsList fills =>
      if hidx : info.fillIndex < fills.length then
        match fills.get ⟨info.fillIndex, hidx⟩ with
        | .otherPaint => (clone, recordSkip st noCandidateIssue)
        | .imagePaint paintVisible _ =>
          let normalizedNodeName := normalizeImageName nfkc info.nodeName
          let matchDecision := decideImageCandidate nfkc normalizedNodeName localeCandidates
          let bestScore := matchDecision.best.map fun b => roundTo3 b.score
          let secondScore := matchDecision.second.map fun s => roundTo3 s.score
          let scoredIssue : ImageIssueReason → ImageIssue := fun reason =>
            { locale := locale, nodeId := info.id, nodeName := info.nodeName
              reason := reason, bestScore := bestScore, secondBestScore := secondScore
              candidates := some (summarizeCandidates matchDecision.topCandidates) }
          match matchDecision.status with
          | .noCandidate => (clone, recordSkip st noCandidateIssue)
          | .lowConfidence => (clone, recordSkip st (scoredIssue .lowConfidence))
          | .ambiguous =>
            (clone,
              { recordSkip st (scoredIssue .ambiguous) with
                imageAmbiguousCount := st.imageAmbiguousCount + 1 })
          | .matched =>
            match matchDecision.best with
            | none => (clone, recordSkip st noCandidateIssue)
            | some best =>
              let key := best.entry.key
              let swap : String → SNode := fun imageHash =>
                updateNodeByIdN info.id
                  (setFills (.fillsList
                    (fills.set info.fillIndex (.imagePaint paintVisible imageHash))))
                  clone
              match lookupAssoc st.imageHashCache key with
              | some imageHash =>
                (swap imageHash, { st with imageReplacedCount := st.imageReplacedCount + 1 })
              | none =>
                let st := { st with requests := st.requests ++ [key] }
                match byteOracle key with
                | none => (clone, recordReadFailed st (scoredIssue .readFailed))
                | some bytes =>
                  if bytes = [] then (clone, recordReadFailed st (scoredIssue .readFailed))
                  else
                    match createImg bytes with
                    | none => (clone, recordReadFailed st (scoredIssue .readFailed))
                    | some imageHash =>
                      (swap imageHash,
                        { st with
                          imageReplacedCount := st.imageReplacedCount + 1
                          imageHashCache := st.imageHashCache ++ [(key, imageHash)] })
      else (clone, recordSkip st noCandidateIssue)

/-! ### Text replacement and dominant style (src/code.ts lines 1010-1056) -/

/-- The dominant-segment selection of lines 1032-1040: start from
`segments[0]` with `maxLen = 0` and take any segment whose span strictly
exceeds the running maximum. -/
def pickDominantSegment (segments : List TextSegment) : Option TextSegment :=
  match segments with
  | [] => none
  | s0 :: _ =>
    some (segments.foldl
      (fun acc seg =>
        if acc.2 < seg.stopIdx - seg.startIdx then (seg, seg.stopIdx - seg.startIdx) else acc)
      (s0, 0)).1

/-- One iteration of the text-replacement loop (lines 1010-1056): look the
node up in the text-only correspondence map; replace its characters; when
style segments exist, reapply the dominant segment's style bundle.  Font
loading (lines 989-1008, 1042) has no effect in this pure model. -/
def applyOneTranslation (clone : SNode) (entry : String × String) : SNode :=
  match findTextNode entry.1 clone with
  | none => clone
  | some textNode =>
    match pickDominantSegment textNode.segments with
    | none => updateNodeByIdN entry.1 (setCharacters entry.2) clone
    | some dominantSegment =>
      updateNodeByIdN entry.1
        (fun n => setStyleRef dominantSegment.style (setCharacters entry.2 n)) clone

def applyTextTranslations (clone : SNode) (translations : List (String × String)) : SNode :=
  translations.foldl applyOneTranslation clone

/-! ### The apply-localization run (src/code.ts lines 872-1308) -/

/-- `parseLocaleList` (lines 259-268); `none` models a non-array `locales`
field, and a `none` item a non-string element. -/
def parseLocaleList (value : Option (List (Option String))) : List String :=
  match value with
  | none => []
  | some items => ((items.filterMap id).map jsTrim).filter (fun s => s ≠ "")

inductive ApplyOutcome where
  | rejected (message : String)
  | applied (result : RunState) (clones : List SNode)

def ApplyOutcome.isApplied : ApplyOutcome → Bool
  | .applied _ _ => true
  | .rejected _ => false

def ApplyOutcome.runState : ApplyOutcome → RunState
  | .applied st _ => st
  | .rejected _ => initRunState

/-- One iteration of the `for (let i = 0; i < locales.length; i++)` loop
(lines 968-1283): clone the original (renamed `<name>_<locale>`; the vertical
offset is not modelled), replace translated text, then — when image
replacement is on and image nodes exist — run the image loop over the
locale's candidate pool.  Nothing in the pure model throws, so the
per-locale `catch` (line 1280) is never taken and `createdCount` is always
incremented. -/
def processLocale (nfkc : String → String) (byteOracle : String → Option (List ℕ))
    (createImg : List ℕ → Option String) (originalFrame : SNode)
    (sourceImages : List ImageInfo) (imageEnabled : Bool)
    (localeCatalog : List (String × List ImageCatalogEntry))
    (localizations : List (String × List (String × String)))
    (acc : RunState × List SNode) (locale : String) : RunState × List SNode :=
  let translations := (lookupAssoc localizations locale).getD []
  let clonedFrame := applyTextTranslations
    (renameRoot (originalFrame.name ++ "_" ++ locale) originalFrame) translations
  let stepped :=
    if imageEnabled ∧ sourceImages ≠ [] then
      sourceImages.foldl
        (stepImage nfkc byteOracle createImg locale
          (getCandidatesForLocale localeCatalog locale))
        (clonedFrame, acc.1)
    else (clonedFrame, acc.1)
  ({ stepped.2 with createdCount := stepped.2.createdCount + 1 }, acc.2 ++ [stepped.1])

/-- The `apply-localization` message handler (lines 872-1308), from raw
message fields to either a rejection (`apply-error`, carrying the message
string) or a completed run.  `rawLocalizations = none` models a missing,
non-object or array `localizations` field. -/
def applyLocalization (nfkc : String → String) (byteOracle : String → Option (List ℕ))
    (createImg : List ℕ → Option String) (selection : List SNode)
    (rawLocalizations : Option (List (String × List (String × String))))
    (rawLocales : Option (List (Option String)))
    (rawImageSource : RawImageSource) : ApplyOutcome :=
  match selection with
  | [] => .rejected "Please select the original frame"
  | selectedNode :: _ =>
    if ¬ (selectedNode.kind = .frame ∨ selectedNode.kind = .component ∨
          selectedNode.kind = .compInstance) then
      .rejected "Please select a frame, component, or instance"
    else
      let localizations := rawLocalizations.getD []
      let requestedLocales := parseLocaleList rawLocales
      let imageSource := parseImageSourceSettings rawImageSource
      let locales :=
        if requestedLocales ≠ [] then requestedLocales else localizations.map Prod.fst
      let hasAnyTextTranslations :=
        locales.any fun locale => ((lookupAssoc localizations locale).getD []).length ≠ 0
      if locales = [] then .rejected "No target locales provided"
      else if ¬ imageSource.enabled ∧ ¬ hasAnyTextTranslations then
        .rejected "No localizations found in the response"
      else if imageSource.enabled ∧ (¬ imageSource.modeFolder ∨ imageSource.catalog = none) then
        .rejected "Choose a localized assets folder before applying image replacement"
      else if imageSource.enabled ∧
          MAX_CATALOG_ENTRIES < ((imageSource.catalog.map (·.entries.length)).getD 0) then
        .rejected "Image catalog exceeds limit (5000). Reduce files and try again."
      else
        let originalFrame := selectedNode
        let localeCatalog :=
          match imageSource.catalog with
          | some catalog => getLocaleCatalog catalog
          | none => []
        let sourceImages :=
          if imageSource.enabled then extractImageNodesN originalFrame else []
        if imageSource.enabled ∧ sourceImages = [] ∧ ¬ hasAnyTextTranslations then
          .rejected "No visible image nodes found to replace"
        else
          let (st, clones) := locales.foldl
            (processLocale nfkc byteOracle createImg originalFrame sourceImages
              imageSource.enabled localeCatalog localizations)
            (initRunState, [])
          .applied st clones

/-! ### Specification-side definitions

These render the spec's wording independently of the code path, to be
compared with the embedded functions. -/

/-- §4.3: the decision status as a pure function of the best score, the
best-minus-second gap, and the candidate count. -/
def specDecisionStatus (bestScore gap : Option ℚ) (candidateCount : ℕ) : MatchStatus :=
  if candidateCount = 0 then .noCandidate
  else
    match bestScore with
    | none => .noCandidate
    | some b =>
      if b < MIN_MATCH_SCORE then .lowConfidence
      else
        match gap with
        | some g => if g < AMBIGUOUS_MARGIN then .ambiguous else .matched
        | none => .matched

/-- §4.2: the combined similarity formula
`min(1, 0.55·tokenDice + 0.45·bigramDice + substring bonus)`. -/
def specCombinedScore (canonicalA canonicalB : String) : ℚ :=
  let tokenDice := computeTokenDiceScore
    (tokenizeCanonicalName canonicalA) (tokenizeCanonicalName canonicalB)
  let bigramDice := computeBigramDiceScore canonicalA canonicalB
  let bonus : ℚ :=
    if containsSub canonicalA.data canonicalB.data ||
       containsSub canonicalB.data canonicalA.data then 8/100 else 0
  min 1 ((55/100) * tokenDice + (45/100) * bigramDice + bonus)

/-- §4.4 as claimed: exact non-empty bucket, else first case-insensitive
bucket, else the union of the buckets sharing the language base. -/
def specLocaleLookup (localeCatalog : List (String × List ImageCatalogEntry))
    (locale : String) : List ImageCatalogEntry :=
  let exactEntries := ((localeCatalog.find? (fun p => p.1 = locale)).map Prod.snd).getD []
  if exactEntries ≠ [] then exactEntries
  else
    match localeCatalog.find?
        (fun p => jsToLowerCase (jsTrim p.1) = jsToLowerCase (jsTrim locale)) with
    | some p => p.2
    | none =>
      let localeBase := getLanguageBase locale
      localeCatalog.foldl
        (fun fallback p => if getLanguageBase p.1 = localeBase then fallback ++ p.2 else fallback)
        []

/-- Keep the first entry for each key, dropping later duplicates (the spec's
"duplicate keys after the first are dropped"). -/
def dedupByKey (seen : List String) : List ImageCatalogEntry → List ImageCatalogEntry
  | [] => []
  | e :: es =>
    if seen.contains e.key then dedupByKey seen es
    else e :: dedupByKey (e.key :: seen) es

def segLen (s : TextSegment) : ℕ := s.stopIdx - s.startIdx

/-- §4.7: the first segment of maximal character span, scanning left to
right from `acc`. -/
def firstMaxSegment (acc : TextSegment) : List TextSegment → TextSegment
  | [] => acc
  | s :: rest =>
    if segLen acc < segLen s then firstMaxSegment s rest else firstMaxSegment acc rest

/-- A byte retrieval for asset key `k` that succeeds end to end: the oracle
delivers non-empty bytes and image creation from them succeeds. -/
def byteSuccess (byteOracle : String → Option (List ℕ))
    (createImg : List ℕ → Option String) (k : String) : Prop :=
  ∃ bs, byteOracle k = some bs ∧ bs ≠ [] ∧ ∃ h, createImg bs = some h

/-- The top-level validation conditions of the apply run, as a single
conjunction (derived values computed exactly as the handler computes them). -/
def applyValidationOk (selection : List SNode)
    (rawLocalizations : Option (List (String × List (String × String))))
    (rawLocales : Option (List (Option String)))
    (rawImageSource : RawImageSource) : Prop :=
  match selection with
  | [] => False
  | selectedNode :: _ =>
    let localizations := rawLocalizations.getD []
    let requestedLocales := parseLocaleList rawLocales
    let imageSource := parseImageSourceSettings rawImageSource
    let locales :=
      if requestedLocales ≠ [] then requestedLocales else localizations.map Prod.fst
    let hasAnyTextTranslations :=
      locales.any fun locale => ((lookupAssoc localizations locale).getD []).length ≠ 0
    let sourceImages :=
      if imageSource.enabled then extractImageNodesN selectedNode else []
    (selectedNode.kind = .frame ∨ selectedNode.kind = .component ∨
        selectedNode.kind = .compInstance) ∧
    locales ≠ [] ∧
    (imageSource.enabled = true ∨ hasAnyTextTranslations = true) ∧
    (imageSource.enabled = true →
      imageSource.modeFolder = true ∧ imageSource.catalog ≠ none ∧
      ¬ MAX_CATALOG_ENTRIES < ((imageSource.catalog.map (·.entries.length)).getD 0)) ∧
    (imageSource.enabled = true → sourceImages = [] → hasAnyTextTranslations = true)

/-! ### Concrete fixtures used by counterexamples and witnesses -/

/-- A rectangle with one visible image fill, named `home hero`. -/
def fixRect (i : String) : SNode :=
  .node i "home hero" .other true (.fillsList [.imagePaint true "oldHash"]) "" [] 0 []

/-- A frame containing two image nodes whose names both match the single
catalog stem `home-hero`. -/
def fixTwoImageRoot : SNode :=
  .node "root" "Root" .frame true .noFills "" [] 0 [fixRect "r1", fixRect "r2"]

def fixOneImageRoot : SNode :=
  .node "root" "Root" .frame true .noFills "" [] 0 [fixRect "r1"]

def fixRawEntry (key relPath stem : String) : RawCatalogEntry :=
  .fields (some key) (some "en") (some relPath) (some stem) (some "png") (.finiteVal 100)

/-- A catalog with the single asset `home-hero.png` under key `k`. -/
def fixCatalogOne : RawCatalog :=
  .obj true true (some [fixRawEntry "k" "en/home-hero.png" "home-hero"])

/-- A catalog with two assets whose stems canonicalize identically
(`home-hero` and `home.hero`), forcing an ambiguous decision. -/
def fixCatalogAmbiguous : RawCatalog :=
  .obj true true (some
    [fixRawEntry "k1" "en/home-hero.png" "home-hero",
     fixRawEntry "k2" "en/home.hero.png" "home.hero"])

def fixImageSourceOne : RawImageSource := .obj true (some "folder") fixCatalogOne

def fixImageSourceAmbiguous : RawImageSource := .obj true (some "folder") fixCatalogAmbiguous

/-- A frame whose only child is a text node `t1` with one style segment. -/
def fixTextRoot : SNode :=
  .node "f1" "Frame1" .frame true .noFills "" [] 0
    [.node "t1" "Title" .text true .noFills "Hello" [⟨0, 5, 7⟩] 3 []]

def fixPlainFrame (i : String) : SNode :=
  .node i "Frame" .frame true .noFills "" [] 0 []

/-- A catalog entry filed under locale `es`, for the `es-MX` fallback
scenario. -/
def fixEsEntry : ImageCatalogEntry :=
  { key := "k", locale := "es", relPath := "es/hero.png", stem := "hero"
    extension := .png, size := 10 }

/-- Two frames with distinct-key assets: `r1` matches `ka` (whose retrieval
fails) and `r2` matches `kb` (whose retrieval succeeds). -/
def fixAlphaBetaRoot : SNode :=
  .node "root" "Root" .frame true .noFills "" [] 0
    [.node "r1" "alpha" .other true (.fillsList [.imagePaint true "oldA"]) "" [] 0 [],
     .node "r2" "beta" .other true (.fillsList [.imagePaint true "oldB"]) "" [] 0 []]

def fixCatalogAlphaBeta : RawCatalog :=
  .obj true true (some
    [fixRawEntry "ka" "en/alpha.png" "alpha",
     fixRawEntry "kb" "en/beta.png" "beta"])

def fixImageSourceAlphaBeta : RawImageSource := .obj true (some "folder") fixCatalogAlphaBeta

/-- Byte oracle delivering bytes only for `kb`. -/
def fixOracleBetaOnly : String → Option (List ℕ) :=
  fun k => if k = "kb" then some [1, 2, 3] else none

def fixCreateImgOk : List ℕ → Option String := fun _ => some "newHash"

/-- A raw catalog entry declaring a negative size (`-5`), all other fields
valid. -/
def fixNegSizeEntry : RawCatalogEntry :=
  .fields (some "a") (some "en") (some "p") (some "s") (some "png") (.finiteVal (-5))

/-! ## Theorems -/

/-! ### Dominant-style selection (claim C9) -/

theorem pickDominant_foldl_eq (rest : List TextSegment) :
    ∀ a : TextSegment,
      (rest.foldl
        (fun acc seg =>
          if acc.2 < seg.stopIdx - seg.startIdx then (seg, seg.stopIdx - seg.startIdx) else acc)
        (a, segLen a)).1 = firstMaxSegment a rest := by
  induction rest with
  | nil => intro a; rfl
  | cons s rest ih =>
    intro a
    simp only [List.foldl_cons, firstMaxSegment]
    by_cases h : segLen a < segLen s
    · rw [if_pos h, if_pos (by simpa [segLen] using h)]
      exact ih s
    · rw [if_neg h, if_neg (by simpa [segLen] using h)]
      exact ih a

theorem pickDominant_eq_firstMax (s0 : TextSegment) (rest : List TextSegment) :
    pickDominantSegment (s0 :: rest) = some (firstMaxSegment s0 rest) := by
  simp only [pickDominantSegment, List.foldl_cons]
  have hstep :
      (if (0 : ℕ) < s0.stopIdx - s0.startIdx then (s0, s0.stopIdx - s0.startIdx) else (s0, 0)) =
        (s0, segLen s0) := by
    by_cases h : (0 : ℕ) < s0.stopIdx - s0.startIdx
    · rw [if_pos h]; rfl
    · rw [if_neg h]
      have h0 : segLen s0 = 0 := by simp only [segLen]; omega
      rw [h0]
  rw [hstep, pickDominant_foldl_eq]

theorem firstMaxSegment_le (l : List TextSegment) :
    ∀ a : TextSegment, ∀ t ∈ a :: l, segLen t ≤ segLen (firstMaxSegment a l) := by
  induction l with
  | nil =>
    intro a t ht
    simp only [List.mem_singleton] at ht
    subst ht; exact le_refl _
  | cons s rest ih =>
    intro a t ht
    simp only [firstMaxSegment]
    by_cases h : segLen a < segLen s
    · rw [if_pos h]
      rcases List.mem_cons.mp ht with heq | ht'
      · rw [heq]
        exact le_trans (le_of_lt h) (ih s s (List.mem_cons_self s rest))
      · exact ih s t ht'
    · rw [if_neg h]
      rcases List.mem_cons.mp ht with heq | ht'
      · rw [heq]
        exact ih a a (List.mem_cons_self a rest)
      · rcases List.mem_cons.mp ht' with heq2 | ht''
        · rw [heq2]
          exact le_trans (le_of_not_lt h) (ih a a (List.mem_cons_self a rest))
        · exact ih a t (List.mem_cons.mpr (Or.inr ht''))

theorem firstMaxSegment_first (l : List TextSegment) :
    ∀ a : TextSegment, ∃ pre post,
      a :: l = pre ++ firstMaxSegment a l :: post ∧
      ∀ t ∈ pre, segLen t < segLen (firstMaxSegment a l) := by
  induction l with
  | nil =>
    intro a
    exact ⟨[], [], rfl, by simp⟩
  | cons s rest ih =>
    intro a
    simp only [firstMaxSegment]
    by_cases h : segLen a < segLen s
    · rw [if_pos h]
      obtain ⟨pre, post, hdecomp, hpre⟩ := ih s
      refine ⟨a :: pre, post, by rw [List.cons_append, ← hdecomp], ?_⟩
      intro t ht
      rcases List.mem_cons.mp ht with heq | ht'
      · rw [heq]
        exact lt_of_lt_of_le h (firstMaxSegment_le rest s s (List.mem_cons_self s rest))
      · exact hpre t ht'
    · rw [if_neg h]
      obtain ⟨pre, post, hdecomp, hpre⟩ := ih a
      cases pre with
      | nil =>
        simp only [List.nil_append, List.cons.injEq] at hdecomp
        refine ⟨[], s :: rest, ?_, by simp⟩
        rw [List.nil_append, ← hdecomp.1]
      | cons p pre' =>
        simp only [List.cons_append, List.cons.injEq] at hdecomp
        obtain ⟨hap, hrest⟩ := hdecomp
        subst hap
        refine ⟨a :: s :: pre', post, ?_, ?_⟩
        · rw [List.cons_append, List.cons_append, ← hrest]
        · intro t ht
          have hp : segLen a < segLen (firstMaxSegment a rest) :=
            hpre a (List.mem_cons_self a pre')
          rcases List.mem_cons.mp ht with heq | ht'
          · rw [heq]
            exact hp
          · rcases List.mem_cons.mp ht' with heq2 | ht''
            · rw [heq2]
              exact lt_of_le_of_lt (le_of_not_lt h) hp
            · exact hpre t (List.mem_cons.mpr (Or.inr ht''))

/-- **C9.** For a non-empty segment list, dominant-style selection picks the
first segment of maximal character span (all earlier segments are strictly
shorter, no segment is longer); for spans `[3,5,5,2]` the second segment is
selected; with no segments, selection yields nothing and text replacement
only sets the characters, with no style restoration. -/
theorem pickDominantSegment_spec :
    (∀ segs : List TextSegment, segs ≠ [] →
      ∃ d pre post, pickDominantSegment segs = some d ∧
        segs = pre ++ d :: post ∧
        (∀ t ∈ segs, segLen t ≤ segLen d) ∧
        (∀ t ∈ pre, segLen t < segLen d)) ∧
    pickDominantSegment
        [⟨0, 3, 10⟩, ⟨3, 8, 11⟩, ⟨8, 13, 12⟩, ⟨13, 15, 13⟩] = some ⟨3, 8, 11⟩ ∧
    pickDominantSegment [] = none ∧
    (∀ clone target t, (findTextNode target clone).map SNode.segments = some [] →
      applyOneTranslation clone (target, t) = updateNodeByIdN target (setCharacters t) clone) := by
  refine ⟨?_, by decide, rfl, ?_⟩
  · intro segs hne
    cases segs with
    | nil => exact absurd rfl hne
    | cons s0 rest =>
      obtain ⟨pre, post, hdecomp, hpre⟩ := firstMaxSegment_first rest s0
      exact ⟨firstMaxSegment s0 rest, pre, post, pickDominant_eq_firstMax s0 rest, hdecomp,
        firstMaxSegment_le rest s0, hpre⟩
  · intro clone target t h
    cases hf : findTextNode target clone with
    | none =>
      rw [hf] at h
      simp at h
    | some tn =>
      rw [hf] at h
      have hseg : tn.segments = [] := by simpa using h
      simp [applyOneTranslation, hf, hseg, pickDominantSegment]

theorem pickDominantSegment_spec_witness :
    pickDominantSegment [⟨0, 3, 10⟩, ⟨3, 8, 11⟩] ≠ none := by
  obtain ⟨d, pre, post, hd, -, -, -⟩ :=
    pickDominantSegment_spec.1 [⟨0, 3, 10⟩, ⟨3, 8, 11⟩] (by decide)
  rw [hd]
  exact Option.some_ne_none d

/-! ### Locale candidate lookup (claim C5) -/

/-- **C5.** For every locale-indexed catalog and every requested locale whose
trimmed lower-cased form is non-empty (every locale produced by
`parseLocaleList` or by a parsed translation map key is of this form),
candidate lookup follows exactly the claimed strategy: the exact-key bucket
when non-empty, else the first case-insensitively matching bucket, else the
union of all buckets sharing the language base.  In particular `es-MX`
against a catalog holding only `es` entries returns those entries. -/
theorem getCandidatesForLocale_spec
    (localeCatalog : List (String × List ImageCatalogEntry)) (locale : String)
    (h : jsToLowerCase (jsTrim locale) ≠ "") :
    getCandidatesForLocale localeCatalog locale = specLocaleLookup localeCatalog locale := by
  simp only [getCandidatesForLocale, specLocaleLookup, if_neg h]

theorem getCandidatesForLocale_spec_witness :
    getCandidatesForLocale [("es", [fixEsEntry])] "es-MX" = [fixEsEntry] := by
  rw [getCandidatesForLocale_spec [("es", [fixEsEntry])] "es-MX" (by decide)]
  rfl

/-! ### Catalog parsing (claim C8) -/

theorem parseCatalogEntriesGo_eq (raws : List RawCatalogEntry) :
    ∀ seen, parseCatalogEntriesGo seen raws = dedupByKey seen (raws.filterMap validateCatalogEntry) := by
  induction raws with
  | nil => intro seen; rfl
  | cons raw rest ih =>
    intro seen
    simp only [parseCatalogEntriesGo, List.filterMap_cons]
    cases hv : validateCatalogEntry raw with
    | none => exact ih seen
    | some e =>
      simp only [dedupByKey]
      by_cases hs : seen.contains e.key
      · rw [if_pos hs, if_pos hs]
        exact ih seen
      · rw [if_neg hs, if_neg hs, ih (e.key :: seen)]

theorem validateCatalogEntry_some_props (r : RawCatalogEntry) (e : ImageCatalogEntry)
    (h : validateCatalogEntry r = some e) :
    0 ≤ e.size ∧ e.key ≠ "" ∧ e.locale ≠ "" ∧ e.relPath ≠ "" ∧ e.stem ≠ "" := by
  cases r with
  | junk => simp [validateCatalogEntry] at h
  | fields k l rp s ext sz =>
    simp only [validateCatalogEntry] at h
    split at h
    · simp at h
    · split at h
      · simp at h
      · rename_i hcond
        push_neg at hcond
        obtain ⟨hk, hl, hr, hs2, hsz⟩ := hcond
        injection h with h
        subst h
        exact ⟨le_of_not_lt (by simpa using hsz), hk, hl, hr, hs2⟩

theorem mem_dedupByKey (l : List ImageCatalogEntry) :
    ∀ seen e, e ∈ dedupByKey seen l → e ∈ l := by
  induction l with
  | nil => intro seen e he; simp [dedupByKey] at he
  | cons x xs ih =>
    intro seen e he
    simp only [dedupByKey] at he
    by_cases hs : seen.contains x.key
    · rw [if_pos hs] at he
      exact List.mem_cons.mpr (Or.inr (ih seen e he))
    · rw [if_neg hs] at he
      rcases List.mem_cons.mp he with heq | he'
      · exact List.mem_cons.mpr (Or.inl heq)
      · exact List.mem_cons.mpr (Or.inr (ih (x.key :: seen) e he'))

/-- **C8 counterexample.** An entry declaring size `-5` is *not* dropped: it
is retained with its size clamped to `0` (`Math.max(0, Math.round(-5))`),
contradicting both "negative size is dropped" and "retained size equals the
declared size". -/
theorem parseCatalogEntries_negSize_counterexample :
    parseCatalogEntries [fixNegSizeEntry] ≠ [] ∧
    parseCatalogEntries [fixNegSizeEntry] = [⟨"a", "en", "p", "s", .png, 0⟩] := by
  constructor <;> decide

/-- **C8 (amended).** Parsing keeps exactly the entries passing field
validation (non-empty trimmed required string fields, a recognized extension,
a present finite numeric size) with duplicate keys after the first dropped;
every retained entry has non-empty required fields and size
`max(0, round(declared))`, hence `≥ 0` — a negative declared size is clamped
to `0`, not dropped. -/
theorem parseCatalogEntries_spec :
    ∀ raws : List RawCatalogEntry,
      parseCatalogEntries raws = dedupByKey [] (raws.filterMap validateCatalogEntry) ∧
      ∀ e ∈ parseCatalogEntries raws,
        0 ≤ e.size ∧ e.key ≠ "" ∧ e.locale ≠ "" ∧ e.relPath ≠ "" ∧ e.stem ≠ "" := by
  intro raws
  refine ⟨parseCatalogEntriesGo_eq raws [], ?_⟩
  intro e he
  rw [parseCatalogEntries, parseCatalogEntriesGo_eq raws []] at he
  obtain ⟨r, hr, hv⟩ := List.mem_filterMap.mp (mem_dedupByKey _ [] e he)
  exact validateCatalogEntry_some_props r e hv

theorem parseCatalogEntries_spec_witness :
    parseCatalogEntries [fixRawEntry "k" "en/home-hero.png" "home-hero"] =
      dedupByKey []
        ([fixRawEntry "k" "en/home-hero.png" "home-hero"].filterMap validateCatalogEntry) ∧
    (0 : ℤ) ≤
      (⟨"k", "en", "en/home-hero.png", "home-hero", .png, 100⟩ : ImageCatalogEntry).size := by
  refine ⟨(parseCatalogEntries_spec _).1, ?_⟩
  exact ((parseCatalogEntries_spec [fixRawEntry "k" "en/home-hero.png" "home-hero"]).2
    _ (by decide)).1

/-! ### Similarity scoring (claim C3) -/

theorem string_eq_empty_iff (s : String) : s = "" ↔ s.data = [] := by
  cases s with
  | mk d =>
    constructor
    · intro h
      rw [h]
    · intro h
      rw [show d = [] from h]

theorem containsSub_nil_right (l : List Char) : containsSub l [] = true := by
  cases l with
  | nil => rfl
  | cons c rest => simp [containsSub, List.isPrefixOf]

theorem containsSub_self (l : List Char) : containsSub l l = true := by
  cases l with
  | nil => rfl
  | cons c rest =>
    simp only [containsSub, Bool.or_eq_true]
    left
    simp [List.isPrefixOf_iff_prefix]

theorem computeTokenDiceScore_nonneg (tokensA tokensB : List String) :
    0 ≤ computeTokenDiceScore tokensA tokensB := by
  simp only [computeTokenDiceScore]
  split_ifs
  · exact le_refl 0
  · exact le_refl 0
  · positivity

theorem computeBigramDiceScore_nonneg (valueA valueB : String) :
    0 ≤ computeBigramDiceScore valueA valueB := by
  simp only [computeBigramDiceScore]
  split_ifs
  · exact le_refl 0
  · exact le_refl 0
  · positivity

theorem computeTokenDiceScore_eq_zero_of_disjoint (tokensA tokensB : List String)
    (h : ∀ t ∈ tokensA, t ∉ tokensB) : computeTokenDiceScore tokensA tokensB = 0 := by
  simp only [computeTokenDiceScore]
  split_ifs
  · rfl
  · rfl
  · have hfilter : tokensA.dedup.filter (fun t => tokensB.dedup.contains t) = [] := by
      rw [List.filter_eq_nil_iff]
      intro t ht
      have ht' : t ∈ tokensA := List.mem_dedup.mp ht
      have : t ∉ tokensB.dedup := fun hmem => h t ht' (List.mem_dedup.mp hmem)
      simpa using this
    rw [hfilter]
    simp

theorem computeBigramDiceScore_eq_zero_of_disjoint (valueA valueB : String)
    (h : ∀ g ∈ buildBigrams valueA.data, g ∉ buildBigrams valueB.data) :
    computeBigramDiceScore valueA valueB = 0 := by
  simp only [computeBigramDiceScore]
  split_ifs
  · rfl
  · rfl
  · have hsum : ((buildBigrams valueA.data).dedup.map
        (fun g => min ((buildBigrams valueA.data).count g)
          ((buildBigrams valueB.data).count g))).sum = 0 := by
      apply List.sum_eq_zero
      intro x hx
      obtain ⟨g, hg, rfl⟩ := List.mem_map.mp hx
      have hgB : (buildBigrams valueB.data).count g = 0 :=
        List.count_eq_zero.mpr (h g (List.mem_dedup.mp hg))
      rw [hgB]
      exact Nat.min_zero _
    rw [hsum]
    simp

/-- **C3 counterexample.** For node name `12` and stem `12` the canonical
forms are equal and non-empty, so the code short-circuits to score `1`, while
the claimed formula `min(1, 0.55·tokenDice + 0.45·bigramDice + 0.08)`
evaluates to `0.53` (the lone token `12` is purely numeric and is discarded,
so tokenDice is 0; bigramDice is 1; the substring bonus applies). -/
theorem scoreImageNameMatch_formula_counterexample :
    scoreImageNameMatch id "12" "12" = 1 ∧
    specCombinedScore (normalizeImageName id "12") (normalizeImageName id "12") = 53/100 ∧
    scoreImageNameMatch id "12" "12" ≠
      specCombinedScore (normalizeImageName id "12") (normalizeImageName id "12") :=
  ⟨by decide, by decide, by decide⟩

/-- **C3 (amended).** The similarity score always lies in `[0,1]`; it equals
`min(1, 0.55·tokenDice + 0.45·bigramDice + 0.08 substring bonus)` whenever
the two canonical forms are non-empty and distinct; identical *non-empty*
canonical forms score exactly 1 (identical empty ones score 0); and disjoint
token sets, disjoint bigram multisets and no substring containment force
score 0. -/
theorem scoreImageNameMatch_spec (nfkc : String → String) (a b : String) :
    (0 ≤ scoreImageNameMatch nfkc a b ∧ scoreImageNameMatch nfkc a b ≤ 1) ∧
    (normalizeImageName nfkc a ≠ "" → normalizeImageName nfkc b ≠ "" →
      normalizeImageName nfkc a ≠ normalizeImageName nfkc b →
      scoreImageNameMatch nfkc a b =
        specCombinedScore (normalizeImageName nfkc a) (normalizeImageName nfkc b)) ∧
    (normalizeImageName nfkc a ≠ "" → normalizeImageName nfkc a = normalizeImageName nfkc b →
      scoreImageNameMatch nfkc a b = 1) ∧
    ((∀ t ∈ tokenizeCanonicalName (normalizeImageName nfkc a),
        t ∉ tokenizeCanonicalName (normalizeImageName nfkc b)) →
      (∀ g ∈ buildBigrams (normalizeImageName nfkc a).data,
        g ∉ buildBigrams (normalizeImageName nfkc b).data) →
      containsSub (normalizeImageName nfkc a).data (normalizeImageName nfkc b).data = false →
      containsSub (normalizeImageName nfkc b).data (normalizeImageName nfkc a).data = false →
      scoreImageNameMatch nfkc a b = 0) := by
  refine ⟨⟨?_, ?_⟩, ?_, ?_, ?_⟩
  · simp only [scoreImageNameMatch]
    split_ifs
    all_goals
      first
        | exact le_refl 0
        | exact zero_le_one
        | exact le_min zero_le_one
            (add_nonneg
              (add_nonneg (mul_nonneg (by norm_num) (computeTokenDiceScore_nonneg _ _))
                (mul_nonneg (by norm_num) (computeBigramDiceScore_nonneg _ _)))
              (by norm_num))
  · simp only [scoreImageNameMatch]
    split_ifs
    all_goals norm_num
  · intro h1 h2 h3
    simp only [scoreImageNameMatch, specCombinedScore]
    rw [if_neg (by simp [h1, h2]), if_neg h3]
  · intro h1 h2
    simp only [scoreImageNameMatch]
    rw [if_neg (by simp [h1, h2 ▸ h1]), if_pos h2]
  · intro ht hg hc1 hc2
    have hbne : normalizeImageName nfkc b ≠ "" := by
      intro hb
      have : (normalizeImageName nfkc b).data = [] := (string_eq_empty_iff _).mp hb
      rw [this, containsSub_nil_right] at hc1
      exact Bool.noConfusion hc1
    have hane : normalizeImageName nfkc a ≠ "" := by
      intro ha
      have : (normalizeImageName nfkc a).data = [] := (string_eq_empty_iff _).mp ha
      rw [this, containsSub_nil_right] at hc2
      exact Bool.noConfusion hc2
    have hne : normalizeImageName nfkc a ≠ normalizeImageName nfkc b := by
      intro heq
      rw [heq, containsSub_self] at hc1
      exact Bool.noConfusion hc1
    simp only [scoreImageNameMatch]
    rw [if_neg (by simp [hane, hbne]), if_neg hne]
    rw [computeTokenDiceScore_eq_zero_of_disjoint _ _ ht,
      computeBigramDiceScore_eq_zero_of_disjoint _ _ hg]
    rw [if_neg (by simp [hc1, hc2])]
    norm_num

theorem scoreImageNameMatch_spec_witness :
    scoreImageNameMatch id "home hero" "home_hero_v2" =
      specCombinedScore (normalizeImageName id "home hero")
        (normalizeImageName id "home_hero_v2") :=
  (scoreImageNameMatch_spec id "home hero" "home_hero_v2").2.1
    (by decide) (by decide) (by decide)

/-! ### Ranking and match decision (claim C2) -/

theorem mem_insertRankedDesc (x : RankedCandidate) (l : List RankedCandidate)
    (a : RankedCandidate) : a ∈ insertRankedDesc x l ↔ a = x ∨ a ∈ l := by
  induction l with
  | nil => simp [insertRankedDesc]
  | cons y ys ih =>
    simp only [insertRankedDesc]
    split_ifs
    · simp [List.mem_cons]
    · rw [List.mem_cons, ih, List.mem_cons]
      tauto

theorem sorted_insertRankedDesc (x : RankedCandidate) (l : List RankedCandidate)
    (hl : l.Pairwise (fun a b => b.score ≤ a.score)) :
    (insertRankedDesc x l).Pairwise (fun a b => b.score ≤ a.score) := by
  induction l with
  | nil => simp [insertRankedDesc]
  | cons y ys ih =>
    rw [List.pairwise_cons] at hl
    obtain ⟨hy, hys⟩ := hl
    simp only [insertRankedDesc]
    split_ifs with h
    · rw [List.pairwise_cons]
      refine ⟨?_, List.Pairwise.cons hy hys⟩
      intro b hb
      rcases List.mem_cons.mp hb with heq | hb'
      · rw [heq]; exact h
      · exact le_trans (hy b hb') h
    · rw [List.pairwise_cons]
      refine ⟨?_, ih hys⟩
      intro b hb
      rcases (mem_insertRankedDesc x ys b).mp hb with heq | hb'
      · rw [heq]
        exact le_of_lt (lt_of_not_le h)
      · exact hy b hb'

theorem sorted_sortRankedDesc (l : List RankedCandidate) :
    (sortRankedDesc l).Pairwise (fun a b => b.score ≤ a.score) := by
  induction l with
  | nil => simp [sortRankedDesc]
  | cons x xs ih =>
    simp only [sortRankedDesc, List.foldr_cons]
    exact sorted_insertRankedDesc x _ ih

theorem length_insertRankedDesc (x : RankedCandidate) (l : List RankedCandidate) :
    (insertRankedDesc x l).length = l.length + 1 := by
  induction l with
  | nil => rfl
  | cons y ys ih =>
    simp only [insertRankedDesc]
    split_ifs
    · rfl
    · simp [ih]

theorem length_sortRankedDesc (l : List RankedCandidate) :
    (sortRankedDesc l).length = l.length := by
  induction l with
  | nil => rfl
  | cons x xs ih =>
    simp only [sortRankedDesc, List.foldr_cons] at ih ⊢
    rw [length_insertRankedDesc, ih, List.length_cons]

theorem length_rankImageCandidates (nfkc : String → String) (nodeName : String)
    (candidates : List ImageCatalogEntry) :
    (rankImageCandidates nfkc nodeName candidates).length = candidates.length := by
  rw [rankImageCandidates, length_sortRankedDesc, List.length_map]

/-- **C2.** Candidates are ranked by score in descending order, the decision
status is exactly the claimed pure function of (best score, best-minus-second
gap, candidate count) — empty list → `no-candidate`, best < 0.6 →
`low-confidence`, second exists with gap < 0.04 → `ambiguous`, otherwise
`matched` — and a matched decision carries the best-ranked candidate. -/
theorem decideImageCandidate_spec (nfkc : String → String) (nodeName : String)
    (candidates : List ImageCatalogEntry) :
    (rankImageCandidates nfkc nodeName candidates).Pairwise
      (fun a b => b.score ≤ a.score) ∧
    (decideImageCandidate nfkc nodeName candidates).status =
      specDecisionStatus
        ((rankImageCandidates nfkc nodeName candidates).head?.map (fun c => c.score))
        (match rankImageCandidates nfkc nodeName candidates with
         | a :: b :: _ => some (a.score - b.score)
         | _ => none)
        candidates.length ∧
    ((decideImageCandidate nfkc nodeName candidates).status = .matched →
      (decideImageCandidate nfkc nodeName candidates).best =
        (rankImageCandidates nfkc nodeName candidates).head?) := by
  refine ⟨by rw [rankImageCandidates]; exact sorted_sortRankedDesc _, ?_⟩
  by_cases hc : candidates = []
  · subst hc
    constructor
    · rfl
    · intro h
      simp [decideImageCandidate] at h
  · have hlen : (rankImageCandidates nfkc nodeName candidates).length = candidates.length :=
      length_rankImageCandidates nfkc nodeName candidates
    have hclen : candidates.length ≠ 0 := fun h0 => hc (List.length_eq_zero.mp h0)
    cases hr : rankImageCandidates nfkc nodeName candidates with
    | nil =>
      rw [hr] at hlen
      exact absurd hlen.symm hclen
    | cons best rest =>
      cases rest with
      | nil =>
        by_cases hlt : best.score < MIN_MATCH_SCORE
        · constructor
          · simp [decideImageCandidate, if_neg hc, hr, hlt, specDecisionStatus, hclen]
          · intro h
            simp [decideImageCandidate, if_neg hc, hr, hlt] at h
        · constructor
          · simp [decideImageCandidate, if_neg hc, hr, hlt, specDecisionStatus, hclen]
          · intro _
            simp [decideImageCandidate, if_neg hc, hr, hlt]
      | cons s rest' =>
        by_cases hlt : best.score < MIN_MATCH_SCORE
        · constructor
          · simp [decideImageCandidate, if_neg hc, hr, hlt, specDecisionStatus, hclen]
          · intro h
            simp [decideImageCandidate, if_neg hc, hr, hlt] at h
        · by_cases hgap : best.score - s.score < AMBIGUOUS_MARGIN
          · constructor
            · simp [decideImageCandidate, if_neg hc, hr, hlt, hgap, specDecisionStatus, hclen]
            · intro h
              simp [decideImageCandidate, if_neg hc, hr, hlt, hgap] at h
          · constructor
            · simp [decideImageCandidate, if_neg hc, hr, hlt, hgap, specDecisionStatus, hclen]
            · intro _
              simp [decideImageCandidate, if_neg hc, hr, hlt, hgap]

theorem decideImageCandidate_spec_witness :
    (decideImageCandidate id "home hero"
        [⟨"k", "en", "en/home-hero.png", "home-hero", .png, 100⟩]).best =
      (rankImageCandidates id "home hero"
        [⟨"k", "en", "en/home-hero.png", "home-hero", .png, 100⟩]).head? :=
  (decideImageCandidate_spec id "home hero"
    [⟨"k", "en", "en/home-hero.png", "home-hero", .png, 100⟩]).2.2 (by decide)

/-! ### Byte request lifecycle (claim C6) -/

theorem lookupAssoc_eraseAssoc_self {α : Type} (t : List (String × α)) (k : String) :
    lookupAssoc (eraseAssoc t k) k = none := by
  induction t with
  | nil => rfl
  | cons p ps ih =>
    by_cases hpk : p.1 = k
    · simp only [eraseAssoc, List.filter_cons, hpk]
      simp only [eraseAssoc] at ih
      simp only [decide_not]
      convert ih using 2
      simp
    · simpa [eraseAssoc, lookupAssoc, List.filter_cons, List.find?_cons, hpk] using ih

theorem lookupAssoc_append_of_none {α : Type} (t : List (String × α)) (k : String) (v : α)
    (h : lookupAssoc t k = none) : lookupAssoc (t ++ [(k, v)]) k = some v := by
  induction t with
  | nil => simp [lookupAssoc]
  | cons p ps ih =>
    by_cases hpk : p.1 = k
    · rw [lookupAssoc, List.find?_cons_of_pos _ (by simpa using hpk)] at h
      simp at h
    · rw [lookupAssoc, List.find?_cons_of_neg _ (by simpa using hpk)] at h
      rw [lookupAssoc, List.cons_append, List.find?_cons_of_neg _ (by simpa using hpk)]
      exact ih h

/-- **C6.** A registered byte request is stored with the 10-second timeout;
the timeout event removes the pending entry and resolves to "no data" (no
error is raised — the resolution is an ordinary value); a correlated response
with `ok = false` or an undecodable or empty byte payload likewise removes
the entry and resolves to "no data"; and in an apply run a node whose byte
retrieval yields no data is counted as read-failed while the run continues
to the next node (here: the second node is still replaced and the single
clone is still created). -/
theorem byteRequestLifecycle_spec (table : List (String × PendingByteRequest))
    (requestId fileKey : String) (msg : ByteResponseMsg) :
    (lookupAssoc table requestId = none →
      lookupAssoc (registerByteRequest table requestId fileKey) requestId =
        some { fileKey := fileKey, timeoutMs := 10000 }) ∧
    (fireByteTimeout table requestId = (eraseAssoc table requestId, .noData) ∧
      lookupAssoc (fireByteTimeout table requestId).1 requestId = none) ∧
    (msg.requestId = some requestId → requestId ≠ "" →
      (lookupAssoc table requestId).isSome = true →
      (msg.ok = false ∨ parseUint8Array msg.bytesField = none ∨
        parseUint8Array msg.bytesField = some []) →
      handleImageBytesResponse table msg = (eraseAssoc table requestId, some (requestId, .noData)) ∧
      lookupAssoc (handleImageBytesResponse table msg).1 requestId = none) ∧
    ((applyLocalization id fixOracleBetaOnly fixCreateImgOk [fixAlphaBetaRoot] none
        (some [some "en"]) fixImageSourceAlphaBeta).runState.imageFailedCount = 1 ∧
      (applyLocalization id fixOracleBetaOnly fixCreateImgOk [fixAlphaBetaRoot] none
        (some [some "en"]) fixImageSourceAlphaBeta).runState.imageReplacedCount = 1 ∧
      (applyLocalization id fixOracleBetaOnly fixCreateImgOk [fixAlphaBetaRoot] none
        (some [some "en"]) fixImageSourceAlphaBeta).runState.createdCount = 1) := by
  refine ⟨?_, ⟨rfl, lookupAssoc_eraseAssoc_self table requestId⟩, ?_,
    ⟨by decide, by decide, by decide⟩⟩
  · intro h
    exact lookupAssoc_append_of_none table requestId _ h
  · intro hrid hne hpending hbad
    have heq : handleImageBytesResponse table msg =
        (eraseAssoc table requestId, some (requestId, .noData)) := by
      simp only [handleImageBytesResponse, hrid]
      rw [if_neg hne]
      cases hlook : lookupAssoc table requestId with
      | none =>
        rw [hlook] at hpending
        simp at hpending
      | some pending =>
        by_cases hok : msg.ok = true
        · rcases hbad with hok' | hparse | hparse
          · rw [hok'] at hok
            exact absurd hok (by simp)
          · simp [hok, hparse]
          · simp [hok, hparse]
        · simp [hok]
    exact ⟨heq, by rw [heq]; exact lookupAssoc_eraseAssoc_self table requestId⟩

theorem byteRequestLifecycle_spec_witness :
    handleImageBytesResponse [("r1", ⟨"k", 10000⟩)]
        { requestId := some "r1", ok := false, bytesField := .otherValue } =
      ([], some ("r1", .noData)) := by
  have h := (byteRequestLifecycle_spec [("r1", ⟨"k", 10000⟩)] "r1" "k"
    { requestId := some "r1", ok := false, bytesField := .otherValue }).2.2.1
    rfl (by decide) (by decide) (Or.inl rfl)
  rw [h.1]
  decide

/-! ### Top-level validation (claim C1) -/

/-- **C1 counterexample.** A selection containing *two* frames is not
rejected: the apply run starts (using the first selected node) and creates a
clone, because the handler checks only for an empty selection and the first
node's type, never for `selection.length > 1`. -/
theorem applyLocalization_multi_selection_counterexample :
    (applyLocalization id (fun _ => none) (fun _ => none) [fixTextRoot, fixPlainFrame "f2"]
        (some [("fr", [("t1", "Bonjour")])]) none .notObject).isApplied = true ∧
    (applyLocalization id (fun _ => none) (fun _ => none) [fixTextRoot, fixPlainFrame "f2"]
        (some [("fr", [("t1", "Bonjour")])]) none .notObject).runState.createdCount = 1 ∧
    ([fixTextRoot, fixPlainFrame "f2"] : List SNode).length = 2 := by
  refine ⟨by decide, by decide, rfl⟩

set_option maxHeartbeats 2000000 in
/-- **C1 (amended).** The apply run starts (and only then are clones created)
exactly when: the selection is non-empty and its *first* node is a
frame/component/instance (a multi-node selection is *not* rejected — the
first node is used), at least one target locale is resolvable, text
translations or image replacement is requested, and — when image replacement
is requested — a folder catalog is present, within the 5000-entry bound, and
a visible image node exists unless text translations do; otherwise the
handler rejects before any clone is created. -/
theorem applyLocalization_validation_spec (nfkc : String → String)
    (byteOracle : String → Option (List ℕ)) (createImg : List ℕ → Option String)
    (selection : List SNode)
    (rawLocalizations : Option (List (String × List (String × String))))
    (rawLocales : Option (List (Option String))) (rawImageSource : RawImageSource) :
    (applyLocalization nfkc byteOracle createImg selection rawLocalizations rawLocales
        rawImageSource).isApplied = true ↔
      applyValidationOk selection rawLocalizations rawLocales rawImageSource := by
  cases selection with
  | nil => simp [applyLocalization, applyValidationOk, ApplyOutcome.isApplied]
  | cons selectedNode rest =>
    simp only [applyLocalization, applyValidationOk]
    set P := parseImageSourceSettings rawImageSource with hP
    set locs := (if parseLocaleList rawLocales ≠ [] then parseLocaleList rawLocales
      else List.map Prod.fst (rawLocalizations.getD [])) with hlocs
    set src := (if P.enabled = true then extractImageNodesN selectedNode else []) with hsrcdef
    split_ifs with h1 h2 h3 h4 h5 h6 <;>
      simp only [ApplyOutcome.isApplied, Bool.false_eq_true, false_iff,
        eq_self_iff_true, true_iff] <;>
      tauto

/-! ### Byte-request deduplication across a run (claim C7) -/

theorem lookupAssoc_append_left {α : Type} (t l : List (String × α)) (k : String)
    (h : (lookupAssoc t k).isSome = true) : (lookupAssoc (t ++ l) k).isSome = true := by
  induction t with
  | nil => simp [lookupAssoc] at h
  | cons p ps ih =>
    by_cases hpk : p.1 = k
    · rw [lookupAssoc, List.cons_append, List.find?_cons_of_pos _ (by simpa using hpk)]
      rfl
    · rw [lookupAssoc, List.cons_append, List.find?_cons_of_neg _ (by simpa using hpk)]
      rw [lookupAssoc, List.find?_cons_of_neg _ (by simpa using hpk)] at h
      exact ih h

/-- The per-key invariant maintained by the image loop: a key whose retrieval
succeeds end to end is requested at most once, and once requested it is
cached. -/
def keyRequestInv (k : String) (st : RunState) : Prop :=
  List.count k st.requests ≤ 1 ∧
  (k ∈ st.requests → (lookupAssoc st.imageHashCache k).isSome = true)

theorem keyRequestInv_of_eq (k : String) (st st' : RunState)
    (hr : st'.requests = st.requests) (hc : st'.imageHashCache = st.imageHashCache)
    (h : keyRequestInv k st) : keyRequestInv k st' := by
  constructor
  · rw [hr]; exact h.1
  · intro hm
    rw [hc]
    exact h.2 (hr ▸ hm)

theorem stepImage_keyRequestInv (nfkc : String → String)
    (byteOracle : String → Option (List ℕ)) (createImg : List ℕ → Option String)
    (locale : String) (cands : List ImageCatalogEntry) (k : String)
    (hk : byteSuccess byteOracle createImg k)
    (acc : SNode × RunState) (info : ImageInfo) (h : keyRequestInv k acc.2) :
    keyRequestInv k (stepImage nfkc byteOracle createImg locale cands acc info).2 := by
  obtain ⟨clone, st⟩ := acc
  obtain ⟨bs, hbs, hbsne, hash, hhash⟩ := hk
  simp only [stepImage]
  split
  · exact ⟨h.1, h.2⟩
  · split
    · exact ⟨h.1, h.2⟩
    · exact ⟨h.1, h.2⟩
    · split
      · split
        · exact ⟨h.1, h.2⟩
        · split
          · exact ⟨h.1, h.2⟩
          · exact ⟨h.1, h.2⟩
          · exact ⟨h.1, h.2⟩
          · split
            · exact ⟨h.1, h.2⟩
            · rename_i bestC hbestEq
              split
              · exact ⟨h.1, h.2⟩
              · rename_i hmiss
                by_cases hkey : bestC.entry.key = k
                · have hnotmem : k ∉ st.requests := by
                    intro hmem
                    have := h.2 hmem
                    rw [← hkey, hmiss] at this
                    simp at this
                  have hcount : List.count k (st.requests ++ [bestC.entry.key]) = 1 := by
                    rw [List.count_append, List.count_eq_zero.mpr hnotmem, hkey]
                    simp
                  rw [hkey] at hmiss
                  split
                  · rename_i hnone
                    rw [hkey, hbs] at hnone
                    exact absurd hnone (by simp)
                  · rename_i bs' hsome
                    rw [hkey, hbs] at hsome
                    injection hsome with hsome
                    subst hsome
                    rw [if_neg hbsne]
                    split
                    · rename_i hcreate
                      rw [hhash] at hcreate
                      exact absurd hcreate (by simp)
                    · rename_i hash' hcreate
                      refine ⟨by simpa using le_of_eq hcount, ?_⟩
                      intro _
                      rw [hkey]
                      rw [lookupAssoc_append_of_none _ _ _ hmiss]
                      rfl
                · have hzero : List.count k [bestC.entry.key] = 0 :=
                    List.count_eq_zero.mpr (by simp [Ne.symm hkey])
                  have hcount : List.count k (st.requests ++ [bestC.entry.key]) =
                      List.count k st.requests := by
                    rw [List.count_append, hzero, Nat.add_zero]
                  have hmem : k ∈ st.requests ++ [bestC.entry.key] ↔ k ∈ st.requests := by
                    simp [List.mem_append, Ne.symm hkey]
                  split
                  · exact ⟨by simpa [recordReadFailed, hcount] using h.1,
                      fun hm => h.2 (hmem.mp hm)⟩
                  · split
                    · exact ⟨by simpa [recordReadFailed, hcount] using h.1,
                        fun hm => h.2 (hmem.mp hm)⟩
                    · split
                      · exact ⟨by simpa [recordReadFailed, hcount] using h.1,
                          fun hm => h.2 (hmem.mp hm)⟩
                      · exact ⟨by simpa [recordReadFailed, hcount] using h.1,
                          fun hm => lookupAssoc_append_left _ _ _ (h.2 (hmem.mp hm))⟩
      · exact ⟨h.1, h.2⟩

theorem foldl_stepImage_keyRequestInv (nfkc : String → String)
    (byteOracle : String → Option (List ℕ)) (createImg : List ℕ → Option String)
    (locale : String) (cands : List ImageCatalogEntry) (k : String)
    (hk : byteSuccess byteOracle createImg k) :
    ∀ (l : List ImageInfo) (acc : SNode × RunState), keyRequestInv k acc.2 →
      keyRequestInv k
        ((l.foldl (stepImage nfkc byteOracle createImg locale cands) acc)).2 := by
  intro l
  induction l with
  | nil => intro acc h; exact h
  | cons info rest ih =>
    intro acc h
    exact ih _ (stepImage_keyRequestInv nfkc byteOracle createImg locale cands k hk acc info h)

theorem processLocale_keyRequestInv (nfkc : String → String)
    (byteOracle : String → Option (List ℕ)) (createImg : List ℕ → Option String)
    (originalFrame : SNode) (sourceImages : List ImageInfo) (imageEnabled : Bool)
    (localeCatalog : List (String × List ImageCatalogEntry))
    (localizations : List (String × List (String × String))) (k : String)
    (hk : byteSuccess byteOracle createImg k)
    (acc : RunState × List SNode) (locale : String) (h : keyRequestInv k acc.1) :
    keyRequestInv k
      (processLocale nfkc byteOracle createImg originalFrame sourceImages imageEnabled
        localeCatalog localizations acc locale).1 := by
  simp only [processLocale]
  split
  · rename_i hcond
    exact keyRequestInv_of_eq k _ _ rfl rfl
      (foldl_stepImage_keyRequestInv nfkc byteOracle createImg locale
        (getCandidatesForLocale localeCatalog locale) k hk sourceImages
        (applyTextTranslations
          (renameRoot (originalFrame.name ++ "_" ++ locale) originalFrame)
          ((lookupAssoc localizations locale).getD []), acc.1) h)
  · exact keyRequestInv_of_eq k _ _ rfl rfl h

theorem foldl_processLocale_keyRequestInv (nfkc : String → String)
    (byteOracle : String → Option (List ℕ)) (createImg : List ℕ → Option String)
    (originalFrame : SNode) (sourceImages : List ImageInfo) (imageEnabled : Bool)
    (localeCatalog : List (String × List ImageCatalogEntry))
    (localizations : List (String × List (String × String))) (k : String)
    (hk : byteSuccess byteOracle createImg k) :
    ∀ (locales : List String) (acc : RunState × List SNode), keyRequestInv k acc.1 →
      keyRequestInv k
        ((locales.foldl
          (processLocale nfkc byteOracle createImg originalFrame sourceImages imageEnabled
            localeCatalog localizations) acc)).1 := by
  intro locales
  induction locales with
  | nil => intro acc h; exact h
  | cons locale rest ih =>
    intro acc h
    exact ih _ (processLocale_keyRequestInv nfkc byteOracle createImg originalFrame
      sourceImages imageEnabled localeCatalog localizations k hk acc locale h)

/-- **C7 counterexample.** Two image nodes both matched on the same asset key
`k` whose byte retrieval yields no data issue *two* byte requests, because a
failed retrieval is not cached; the claim's "exactly one request per key"
fails.  (Both nodes are named `home hero` and the single catalog entry has
stem `home-hero`, so both decisions are `matched` on key `k`.) -/
theorem imageByteRequest_duplicate_counterexample :
    (applyLocalization id (fun _ => none) (fun _ => none) [fixTwoImageRoot] none
        (some [some "en"]) fixImageSourceOne).runState.requests = ["k", "k"] ∧
    (decideImageCandidate id (normalizeImageName id "home hero")
        (getCandidatesForLocale
          (getLocaleCatalog
            { entries := parseCatalogEntries [fixRawEntry "k" "en/home-hero.png" "home-hero"] })
          "en")).status = .matched ∧
    ((decideImageCandidate id (normalizeImageName id "home hero")
        (getCandidatesForLocale
          (getLocaleCatalog
            { entries := parseCatalogEntries [fixRawEntry "k" "en/home-hero.png" "home-hero"] })
          "en")).best.map fun b => b.entry.key) = some "k" :=
  ⟨by decide, by decide, by decide⟩

/-- **C7 (amended).** Byte retrieval is cached per asset key for the whole
run *for successful retrievals*: for every key whose retrieval succeeds end
to end (non-empty bytes and successful image creation), at most one byte
request is issued in the entire run — across locales — and later matched
nodes reuse the cached content handle.  (A key whose retrieval fails is not
cached and may be re-requested, as the counterexample shows.) -/
theorem imageByteRequest_dedup_on_success (nfkc : String → String)
    (byteOracle : String → Option (List ℕ)) (createImg : List ℕ → Option String)
    (selection : List SNode)
    (rawLocalizations : Option (List (String × List (String × String))))
    (rawLocales : Option (List (Option String))) (rawImageSource : RawImageSource)
    (k : String) (hk : byteSuccess byteOracle createImg k) :
    List.count k
      (applyLocalization nfkc byteOracle createImg selection rawLocalizations rawLocales
        rawImageSource).runState.requests ≤ 1 := by
  have hinit : keyRequestInv k initRunState := by
    constructor
    · simp [initRunState]
    · intro hmem
      simp [initRunState] at hmem
  cases selection with
  | nil => simp [applyLocalization, ApplyOutcome.runState, initRunState]
  | cons selectedNode rest =>
    simp only [applyLocalization]
    split_ifs
    all_goals
      first
        | (simp only [ApplyOutcome.runState, initRunState]; simp; done)
        | exact (foldl_processLocale_keyRequestInv nfkc byteOracle createImg _ _ _ _ _ k hk
            _ _ hinit).1

theorem imageByteRequest_dedup_on_success_witness :
    byteSuccess (fun _ => some [1, 2, 3]) (fun _ => some "newHash") "k" ∧
    List.count "k"
      (applyLocalization id (fun _ => some [1, 2, 3]) (fun _ => some "newHash")
        [fixTwoImageRoot] none (some [some "en"]) fixImageSourceOne).runState.requests ≤ 1 :=
  ⟨⟨[1, 2, 3], rfl, by decide, "newHash", rfl⟩,
    imageByteRequest_dedup_on_success id (fun _ => some [1, 2, 3]) (fun _ => some "newHash")
      [fixTwoImageRoot] none (some [some "en"]) fixImageSourceOne "k"
      ⟨[1, 2, 3], rfl, by decide, "newHash", rfl⟩⟩

/-! ### Image counters (claim C10) -/

/-- The ambiguous counter never exceeds the skipped counter, because the
ambiguous branch increments both. -/
def ambSkipInv (st : RunState) : Prop :=
  st.imageAmbiguousCount ≤ st.imageSkippedCount

theorem stepImage_ambSkipInv (nfkc : String → String)
    (byteOracle : String → Option (List ℕ)) (createImg : List ℕ → Option String)
    (locale : String) (cands : List ImageCatalogEntry)
    (acc : SNode × RunState) (info : ImageInfo) (h : ambSkipInv acc.2) :
    ambSkipInv (stepImage nfkc byteOracle createImg locale cands acc info).2 := by
  obtain ⟨clone, st⟩ := acc
  simp only [ambSkipInv] at h
  simp only [stepImage, ambSkipInv]
  repeat' split
  all_goals simp only [recordSkip, recordReadFailed, addImageIssue]
  all_goals (try simp)
  all_goals omega

theorem foldl_stepImage_ambSkipInv (nfkc : String → String)
    (byteOracle : String → Option (List ℕ)) (createImg : List ℕ → Option String)
    (locale : String) (cands : List ImageCatalogEntry) :
    ∀ (l : List ImageInfo) (acc : SNode × RunState), ambSkipInv acc.2 →
      ambSkipInv ((l.foldl (stepImage nfkc byteOracle createImg locale cands) acc)).2 := by
  intro l
  induction l with
  | nil => intro acc h; exact h
  | cons info rest ih =>
    intro acc h
    exact ih _ (stepImage_ambSkipInv nfkc byteOracle createImg locale cands acc info h)

theorem processLocale_ambSkipInv (nfkc : String → String)
    (byteOracle : String → Option (List ℕ)) (createImg : List ℕ → Option String)
    (originalFrame : SNode) (sourceImages : List ImageInfo) (imageEnabled : Bool)
    (localeCatalog : List (String × List ImageCatalogEntry))
    (localizations : List (String × List (String × String)))
    (acc : RunState × List SNode) (locale : String) (h : ambSkipInv acc.1) :
    ambSkipInv
      (processLocale nfkc byteOracle createImg originalFrame sourceImages imageEnabled
        localeCatalog localizations acc locale).1 := by
  simp only [processLocale]
  split
  · exact foldl_stepImage_ambSkipInv nfkc byteOracle createImg locale
      (getCandidatesForLocale localeCatalog locale) sourceImages
      (applyTextTranslations
        (renameRoot (originalFrame.name ++ "_" ++ locale) originalFrame)
        ((lookupAssoc localizations locale).getD []), acc.1) h
  · exact h

theorem foldl_processLocale_ambSkipInv (nfkc : String → String)
    (byteOracle : String → Option (List ℕ)) (createImg : List ℕ → Option String)
    (originalFrame : SNode) (sourceImages : List ImageInfo) (imageEnabled : Bool)
    (localeCatalog : List (String × List ImageCatalogEntry))
    (localizations : List (String × List (String × String))) :
    ∀ (locales : List String) (acc : RunState × List SNode), ambSkipInv acc.1 →
      ambSkipInv
        ((locales.foldl
          (processLocale nfkc byteOracle createImg originalFrame sourceImages imageEnabled
            localeCatalog localizations) acc)).1 := by
  intro locales
  induction locales with
  | nil => intro acc h; exact h
  | cons locale rest ih =>
    intro acc h
    exact ih _ (processLocale_ambSkipInv nfkc byteOracle createImg originalFrame
      sourceImages imageEnabled localeCatalog localizations acc locale h)

/-- **C10.** An ambiguous image node increments both `imageSkippedCount` and
`imageAmbiguousCount`, so in every apply run
`imageAmbiguousCount ≤ imageSkippedCount`; and the four image counters do
not partition the processed nodes: in the concrete ambiguous run one node is
processed but the counters sum to 2. -/
theorem imageCounters_ambiguous_spec :
    (∀ (nfkc : String → String) (byteOracle : String → Option (List ℕ))
      (createImg : List ℕ → Option String) (selection : List SNode)
      (rawLocalizations : Option (List (String × List (String × String))))
      (rawLocales : Option (List (Option String))) (rawImageSource : RawImageSource),
      (applyLocalization nfkc byteOracle createImg selection rawLocalizations rawLocales
          rawImageSource).runState.imageAmbiguousCount ≤
        (applyLocalization nfkc byteOracle createImg selection rawLocalizations rawLocales
          rawImageSource).runState.imageSkippedCount) ∧
    (applyLocalization id (fun _ => none) (fun _ => none) [fixOneImageRoot] none
        (some [some "en"]) fixImageSourceAmbiguous).runState.imageSkippedCount = 1 ∧
    (applyLocalization id (fun _ => none) (fun _ => none) [fixOneImageRoot] none
        (some [some "en"]) fixImageSourceAmbiguous).runState.imageAmbiguousCount = 1 ∧
    (applyLocalization id (fun _ => none) (fun _ => none) [fixOneImageRoot] none
        (some [some "en"]) fixImageSourceAmbiguous).runState.imageReplacedCount = 0 ∧
    (applyLocalization id (fun _ => none) (fun _ => none) [fixOneImageRoot] none
        (some [some "en"]) fixImageSourceAmbiguous).runState.imageFailedCount = 0 ∧
    (extractImageNodesN fixOneImageRoot).length = 1 ∧
    0 + 1 + 1 + 0 ≠ 1 := by
  refine ⟨?_, by decide, by decide, by decide, by decide, by decide, by decide⟩
  intro nfkc byteOracle createImg selection rawLocalizations rawLocales rawImageSource
  have hinit : ambSkipInv initRunState := by simp [ambSkipInv, initRunState]
  cases selection with
  | nil => simp [applyLocalization, ApplyOutcome.runState, initRunState]
  | cons selectedNode rest =>
    simp only [applyLocalization]
    split_ifs
    all_goals
      first
        | (simp only [ApplyOutcome.runState, initRunState]; simp; done)
        | exact foldl_processLocale_ambSkipInv nfkc byteOracle createImg _ _ _ _ _
            _ _ hinit

/-! ### Canonicalization idempotence (claim C4) -/

theorem string_mk_data (s : String) : String.mk s.data = s := by
  cases s with
  | mk d => rfl

theorem dropTrailing_prefix_self (p : Char → Bool) (l : List Char) : dropTrailing p l <+: l := by
  have h := List.dropWhile_suffix (l := l.reverse) p
  simpa [dropTrailing] using List.reverse_prefix.mpr h

theorem mem_dropTrailing (p : Char → Bool) (l : List Char) (c : Char)
    (h : c ∈ dropTrailing p l) : c ∈ l :=
  (dropTrailing_prefix_self p l).subset h

theorem mem_jsTrimList (l : List Char) (c : Char) (h : c ∈ jsTrimList l) : c ∈ l :=
  (List.dropWhile_suffix jsWhitespaceChar).subset (mem_dropTrailing _ _ _ h)

theorem dropWhile_head_not (p : Char → Bool) (l : List Char) (c : Char)
    (h : (l.dropWhile p).head? = some c) : p c = false := by
  induction l with
  | nil => simp [List.dropWhile] at h
  | cons d ds ih =>
    rw [List.dropWhile_cons] at h
    split_ifs at h with hd
    · exact ih h
    · simp only [List.head?_cons, Option.some.injEq] at h
      rw [← h]
      simpa using hd

theorem dropWhile_eq_self_of_head (p : Char → Bool) (l : List Char)
    (h : ∀ c, l.head? = some c → p c = false) : l.dropWhile p = l := by
  cases l with
  | nil => rfl
  | cons d ds =>
    rw [List.dropWhile_cons, if_neg (by simp [h d rfl])]

theorem dropWhile_idem (p : Char → Bool) (l : List Char) :
    (l.dropWhile p).dropWhile p = l.dropWhile p :=
  dropWhile_eq_self_of_head p _ (fun c h => dropWhile_head_not p l c h)

theorem dropTrailing_idem (p : Char → Bool) (l : List Char) :
    dropTrailing p (dropTrailing p l) = dropTrailing p l := by
  simp only [dropTrailing, List.reverse_reverse]
  rw [dropWhile_idem]

theorem isPrefix_head_eq {l₁ l₂ : List Char} (h : l₁ <+: l₂) (c : Char)
    (hc : l₁.head? = some c) : l₂.head? = some c := by
  obtain ⟨t, rfl⟩ := h
  cases l₁ with
  | nil => simp at hc
  | cons d ds => simpa using hc

theorem jsTrimList_idem (l : List Char) : jsTrimList (jsTrimList l) = jsTrimList l := by
  simp only [jsTrimList]
  have hhead : ∀ c, (dropTrailing jsWhitespaceChar
      (l.dropWhile jsWhitespaceChar)).head? = some c → jsWhitespaceChar c = false := by
    intro c hc
    exact dropWhile_head_not jsWhitespaceChar l c
      (isPrefix_head_eq (dropTrailing_prefix_self _ _) c hc)
  rw [dropWhile_eq_self_of_head _ _ hhead, dropTrailing_idem]

theorem mem_collapseRunsAux (p : Char → Bool) (l : List Char) :
    ∀ (b : Bool) (c : Char), c ∈ collapseRunsAux p b l → c ∈ l ∨ c = ' ' := by
  induction l with
  | nil => intro b c h; simp [collapseRunsAux] at h
  | cons d ds ih =>
    intro b c h
    simp only [collapseRunsAux] at h
    split_ifs at h with hp hb
    · rcases ih true c h with hm | hs
      · exact Or.inl (List.mem_cons.mpr (Or.inr hm))
      · exact Or.inr hs
    · rcases List.mem_cons.mp h with hs | h'
      · exact Or.inr hs
      · rcases ih true c h' with hm | hs
        · exact Or.inl (List.mem_cons.mpr (Or.inr hm))
        · exact Or.inr hs
    · rcases List.mem_cons.mp h with hd | h'
      · exact Or.inl (List.mem_cons.mpr (Or.inl hd))
      · rcases ih false c h' with hm | hs
        · exact Or.inl (List.mem_cons.mpr (Or.inr hm))
        · exact Or.inr hs

theorem collapseRunsAux_p_imp_space (p : Char → Bool) (l : List Char) :
    ∀ (b : Bool) (c : Char), c ∈ collapseRunsAux p b l → p c = true → c = ' ' := by
  induction l with
  | nil => intro b c h; simp [collapseRunsAux] at h
  | cons d ds ih =>
    intro b c h hpc
    simp only [collapseRunsAux] at h
    split_ifs at h with hp hb
    · exact ih true c h hpc
    · rcases List.mem_cons.mp h with hs | h'
      · exact hs
      · exact ih true c h' hpc
    · rcases List.mem_cons.mp h with hd | h'
      · rw [hd] at hpc
        exact absurd hpc (by simp [hp])
      · exact ih false c h' hpc

theorem collapseRunsAux_id (p : Char → Bool) (l : List Char)
    (h : ∀ c ∈ l, p c = false) : ∀ b, collapseRunsAux p b l = l := by
  induction l with
  | nil => intro b; rfl
  | cons d ds ih =>
    intro b
    simp only [collapseRunsAux]
    rw [if_neg (by simp [h d (List.mem_cons_self d ds)])]
    rw [ih (fun c hc => h c (List.mem_cons.mpr (Or.inr hc))) false]

theorem collapseRunsAux_true_head (p : Char → Bool) (l : List Char) :
    ∀ c, (collapseRunsAux p true l).head? = some c → p c = false := by
  induction l with
  | nil => intro c h; simp [collapseRunsAux] at h
  | cons d ds ih =>
    intro c h
    simp only [collapseRunsAux] at h
    split_ifs at h with hp
    · exact ih c h
    · simp only [List.head?_cons, Option.some.injEq] at h
      rw [← h]
      simpa using hp

theorem collapseRunsAux_chain (p : Char → Bool) (l : List Char) :
    ∀ b, (collapseRunsAux p b l).Chain' (fun a c => p a = false ∨ p c = false) := by
  induction l with
  | nil => intro b; simp [collapseRunsAux]
  | cons d ds ih =>
    intro b
    simp only [collapseRunsAux]
    split_ifs with hp hb
    · exact ih true
    · rw [List.chain'_cons']
      refine ⟨?_, ih true⟩
      intro c hc
      exact Or.inr (collapseRunsAux_true_head p ds c hc)
    · rw [List.chain'_cons']
      refine ⟨?_, ih false⟩
      intro c _
      exact Or.inl (by simpa using hp)

theorem collapseRunsAux_flag_irrelevant (p : Char → Bool) (e : Char) (es : List Char)
    (hpe : p e = false) :
    collapseRunsAux p true (e :: es) = collapseRunsAux p false (e :: es) := by
  simp only [collapseRunsAux]
  rw [if_neg (by simp [hpe]), if_neg (by simp [hpe])]

theorem collapseRunsAux_fix (p : Char → Bool) (l : List Char)
    (hall : ∀ c ∈ l, p c = true → c = ' ')
    (hchain : l.Chain' (fun a c => p a = false ∨ p c = false)) :
    collapseRunsAux p false l = l := by
  induction l with
  | nil => rfl
  | cons c cs ih =>
    rw [List.chain'_cons'] at hchain
    obtain ⟨hhead, htail⟩ := hchain
    have ihcs : collapseRunsAux p false cs = cs :=
      ih (fun x hx hpx => hall x (List.mem_cons.mpr (Or.inr hx)) hpx) htail
    simp only [collapseRunsAux]
    by_cases hp : p c = true
    · rw [if_pos hp, if_neg (by simp : ¬ (false = true))]
      have hceq : c = ' ' := hall c (List.mem_cons_self c cs) hp
      have hcs : collapseRunsAux p true cs = cs := by
        cases hcs0 : cs with
        | nil => rfl
        | cons e es =>
          have hpe : p e = false := by
            rcases hhead e (by simp [hcs0]) with h0 | h0
            · rw [hp] at h0
              exact absurd h0 (by simp)
            · exact h0
          rw [collapseRunsAux_flag_irrelevant p e es hpe, ← hcs0, ihcs]
      rw [hceq, hcs]
    · rw [if_neg hp, ihcs]

theorem mapDashVariants_no_variant (l : List Char) :
    ∀ c ∈ mapDashVariants l, dashVariantChar c = false := by
  intro c hc
  obtain ⟨d, _, rfl⟩ := List.mem_map.mp hc
  by_cases hd : dashVariantChar d = true
  · simp only [hd, if_pos]
    decide
  · simp only [Bool.not_eq_true] at hd
    simp [hd]

theorem mapDashVariants_id (l : List Char) (h : ∀ c ∈ l, dashVariantChar c = false) :
    mapDashVariants l = l := by
  induction l with
  | nil => rfl
  | cons c cs ih =>
    simp only [mapDashVariants, List.map_cons]
    rw [if_neg (by simp [h c (List.mem_cons_self c cs)])]
    have := ih (fun x hx => h x (List.mem_cons.mpr (Or.inr hx)))
    simp only [mapDashVariants] at this
    rw [this]

/-- **C4 counterexample.** Canonicalization is *not* idempotent: the
separator collapse can manufacture a new trailing "space + digits" suffix
that the first stage then strips on a second pass.
`foo_2` canonicalizes to `foo 2`, which canonicalizes to `foo`. -/
theorem normalizeImageName_not_idempotent_counterexample :
    normalizeImageName id (normalizeImageName id "foo_2") ≠ normalizeImageName id "foo_2" ∧
    normalizeImageName id "foo_2" = "foo 2" ∧
    normalizeImageName id (normalizeImageName id "foo_2") = "foo" :=
  ⟨by decide, by decide, by decide⟩

theorem jsTrimList_infix_self (l : List Char) : jsTrimList l <:+: l :=
  (dropTrailing_prefix_self jsWhitespaceChar _).isInfix.trans
    (List.dropWhile_suffix jsWhitespaceChar).isInfix

theorem normalizeImageName_data (nfkc : String → String) (x : String) :
    (normalizeImageName nfkc x).data =
      jsTrimList (collapseWs (collapseSeps (mapDashVariants
        (jsToLowerCase (nfkc (String.mk (stripTrailingDigitGroup
          (jsTrimList x.data))))).data))) := rfl

theorem jsTrimList_normalize (nfkc : String → String) (x : String) :
    jsTrimList (normalizeImageName nfkc x).data = (normalizeImageName nfkc x).data := by
  rw [normalizeImageName_data, jsTrimList_idem]

theorem normalize_no_dashVariant (nfkc : String → String) (x : String) :
    ∀ c ∈ (normalizeImageName nfkc x).data, dashVariantChar c = false := by
  intro c hc
  rw [normalizeImageName_data] at hc
  have h1 := mem_jsTrimList _ c hc
  simp only [collapseWs, collapseSeps, collapseRuns] at h1
  rcases mem_collapseRunsAux jsWhitespaceChar _ false c h1 with h2 | h2
  · rcases mem_collapseRunsAux sepChar _ false c h2 with h3 | h3
    · exact mapDashVariants_no_variant _ c h3
    · rw [h3]
      decide
  · rw [h2]
    decide

theorem normalize_no_sep (nfkc : String → String) (x : String) :
    ∀ c ∈ (normalizeImageName nfkc x).data, sepChar c = false := by
  intro c hc
  rw [normalizeImageName_data] at hc
  have h1 := mem_jsTrimList _ c hc
  simp only [collapseWs, collapseRuns] at h1
  rcases mem_collapseRunsAux jsWhitespaceChar _ false c h1 with h2 | h2
  · by_cases hs : sepChar c = true
    · have hsp := collapseRunsAux_p_imp_space sepChar _ false c
        (by simpa [collapseSeps, collapseRuns] using h2) hs
      rw [hsp] at hs
      exact absurd hs (by decide)
    · simpa using hs
  · rw [h2]
    decide

theorem normalize_ws_space (nfkc : String → String) (x : String) :
    ∀ c ∈ (normalizeImageName nfkc x).data, jsWhitespaceChar c = true → c = ' ' := by
  intro c hc hw
  rw [normalizeImageName_data] at hc
  have h1 := mem_jsTrimList _ c hc
  simp only [collapseWs, collapseRuns] at h1
  exact collapseRunsAux_p_imp_space jsWhitespaceChar _ false c h1 hw

theorem normalize_ws_chain (nfkc : String → String) (x : String) :
    (normalizeImageName nfkc x).data.Chain'
      (fun a c => jsWhitespaceChar a = false ∨ jsWhitespaceChar c = false) := by
  rw [normalizeImageName_data]
  exact List.Chain'.infix (collapseRunsAux_chain jsWhitespaceChar _ false)
    (jsTrimList_infix_self _)

/-- **C4 (amended).** Canonicalization is idempotent for every input whose
canonical form is (a) fixed by the Unicode-normalize + lower-case stage and
(b) does not end in a whitespace+digits suffix. In general the claim fails:
collapsing separator runs can create a fresh trailing "space + digits" group
that a second pass strips (see the counterexample on `foo_2`). -/
theorem normalizeImageName_idempotent_spec (nfkc : String → String) (x : String)
    (h1 : jsToLowerCase (nfkc (normalizeImageName nfkc x)) = normalizeImageName nfkc x)
    (h2 : stripTrailingDigitGroup (normalizeImageName nfkc x).data
        = (normalizeImageName nfkc x).data) :
    normalizeImageName nfkc (normalizeImageName nfkc x) = normalizeImageName nfkc x := by
  have hd : (normalizeImageName nfkc (normalizeImageName nfkc x)).data
      = (normalizeImageName nfkc x).data := by
    rw [normalizeImageName_data nfkc (normalizeImageName nfkc x)]
    rw [jsTrimList_normalize nfkc x, h2, string_mk_data, h1]
    rw [mapDashVariants_id _ (normalize_no_dashVariant nfkc x)]
    rw [show collapseSeps (normalizeImageName nfkc x).data
        = (normalizeImageName nfkc x).data from
      collapseRunsAux_id sepChar _ (normalize_no_sep nfkc x) false]
    rw [show collapseWs (normalizeImageName nfkc x).data
        = (normalizeImageName nfkc x).data from
      collapseRunsAux_fix jsWhitespaceChar _ (normalize_ws_space nfkc x)
        (normalize_ws_chain nfkc x)]
    exact jsTrimList_normalize nfkc x
  calc normalizeImageName nfkc (normalizeImageName nfkc x)
      = String.mk (normalizeImageName nfkc (normalizeImageName nfkc x)).data :=
        (string_mk_data _).symm
    _ = String.mk (normalizeImageName nfkc x).data := by rw [hd]
    _ = normalizeImageName nfkc x := string_mk_data _

theorem normalizeImageName_idempotent_spec_witness :
    normalizeImageName id (normalizeImageName id "Hero-Banner")
      = normalizeImageName id "Hero-Banner" :=
  normalizeImageName_idempotent_spec id "Hero-Banner" (by decide) (by decide)

end SmartLocal
